import Mathlib

/-!
Verification development for the egui pass/interaction core.

This file gives a shallow embedding, in Lean 4, of the parts of the egui
repository that the checked properties are about:

* `AnimationManager.animate_bool` and `AnimationManager.animate_value`
  (crates/egui/src/animation_manager.rs);
* `Areas` (layer order, `compare_order`, visibility hysteresis, `end_pass`)
  and `Focus` (dead-man's switch) from crates/egui/src/memory/mod.rs;
* `WidgetRects.insert` (crates/egui/src/widget_rect.rs);
* the multi-pass loop of `Context::run`, `Context::request_discard` and
  `Context::will_discard` (crates/egui/src/context.rs).

Modelling conventions:

* Rust `f32`/`f64` values are modelled by `F`: an exact rational tagged as
  finite, plus `inf`, `neginf` and `nan`.  Rounding and overflow of finite
  arithmetic are not modelled; the IEEE special values are, because the
  animation code branches on `is_finite`.  The two signed zeros are
  conflated (this affects only which infinity a division by zero yields,
  never whether the result is finite).
* Rust `HashMap`/`IdMap` values are modelled as functions into `Option`,
  Rust `HashSet`s of layers as lists queried only through membership, and
  `Vec` as `List` (push = append on the right).
* Widget and layer identifiers are opaque hashes in the source and are
  modelled as `Nat`.
-/

/-- Comparison of natural numbers, mirroring Rust `Ord` on integers. -/
def natCmp (m n : Nat) : Ordering :=
  if m < n then Ordering.lt else if n < m then Ordering.gt else Ordering.eq

/-- Comparison of `Option Nat` mirroring Rust `Ord` for `Option`:
`None < Some(x)`, and two `Some`s compare their contents. -/
def cmpOptNat : Option Nat → Option Nat → Ordering
  | none, none => Ordering.eq
  | none, some _ => Ordering.lt
  | some _, none => Ordering.gt
  | some i, some j => natCmp i j

/-! ## A model of IEEE floating point numbers -/

/-- Model of an `f32`/`f64` value: an exact rational when finite, plus the
two infinities and NaN.  Rounding is not modelled; the special values are,
because `animate_bool` branches on `is_finite`. -/
inductive F where
  | finite (q : ℚ)
  | inf
  | neginf
  | nan
deriving DecidableEq

namespace F

/-- Rust `f32::is_finite`. -/
def isFinite : F → Bool
  | finite _ => true
  | _ => false

/-- IEEE negation. -/
def neg : F → F
  | finite q => finite (-q)
  | inf => neginf
  | neginf => inf
  | nan => nan

/-- IEEE addition (`inf + neginf = nan`, NaN propagates). -/
def add : F → F → F
  | finite a, finite b => finite (a + b)
  | finite _, inf => inf
  | finite _, neginf => neginf
  | inf, finite _ => inf
  | neginf, finite _ => neginf
  | inf, inf => inf
  | neginf, neginf => neginf
  | inf, neginf => nan
  | neginf, inf => nan
  | nan, _ => nan
  | _, nan => nan

/-- IEEE subtraction. -/
def sub (a b : F) : F := add a (neg b)

/-- IEEE multiplication (`0 * inf = nan`, NaN propagates). -/
def mul : F → F → F
  | finite a, finite b => finite (a * b)
  | finite a, inf => if a = 0 then nan else if 0 < a then inf else neginf
  | finite a, neginf => if a = 0 then nan else if 0 < a then neginf else inf
  | inf, finite b => if b = 0 then nan else if 0 < b then inf else neginf
  | neginf, finite b => if b = 0 then nan else if 0 < b then neginf else inf
  | inf, inf => inf
  | inf, neginf => neginf
  | neginf, inf => neginf
  | neginf, neginf => inf
  | nan, _ => nan
  | _, nan => nan

/-- IEEE division.  A nonzero finite value divided by zero yields an
infinity (signed zeros are conflated, so the sign comes from the numerator
alone); `0/0`, `inf/inf` and NaN operands yield NaN. -/
def div : F → F → F
  | finite a, finite b =>
      if b = 0 then (if a = 0 then nan else if 0 < a then inf else neginf)
      else finite (a / b)
  | finite _, inf => finite 0
  | finite _, neginf => finite 0
  | inf, finite b => if 0 ≤ b then inf else neginf
  | neginf, finite b => if 0 ≤ b then neginf else inf
  | inf, inf => nan
  | inf, neginf => nan
  | neginf, inf => nan
  | neginf, neginf => nan
  | nan, _ => nan
  | _, nan => nan

/-- IEEE comparison `≤` (false whenever an operand is NaN). -/
def le : F → F → Bool
  | nan, _ => false
  | _, nan => false
  | neginf, _ => true
  | _, neginf => false
  | _, inf => true
  | inf, _ => false
  | finite a, finite b => decide (a ≤ b)

/-- IEEE comparison `<` (false whenever an operand is NaN). -/
def lt : F → F → Bool
  | nan, _ => false
  | _, nan => false
  | neginf, neginf => false
  | neginf, _ => true
  | _, neginf => false
  | inf, _ => false
  | _, inf => true
  | finite a, finite b => decide (a < b)

/-- IEEE equality `==` (false whenever an operand is NaN). -/
def beq : F → F → Bool
  | nan, _ => false
  | _, nan => false
  | finite a, finite b => decide (a = b)
  | inf, inf => true
  | neginf, neginf => true
  | _, _ => false

/-- Rust `f32::min`: the smaller argument, or the other argument when one
is NaN.  `emath::NumExt::at_most` is `self.min(lim)`. -/
def fmin : F → F → F
  | nan, b => b
  | a, nan => a
  | a, b => if le a b then a else b

/-- Rust `f32::clamp(self, 0.0, 1.0)`: NaN stays NaN, otherwise the value
is forced into `[0, 1]`. -/
def clamp01 : F → F
  | finite q => finite (min (max q 0) 1)
  | inf => finite 1
  | neginf => finite 0
  | nan => nan

end F

/-! ## The animation store (crates/egui/src/animation_manager.rs) -/

/-- The slice of `InputState` read by the animation manager: `time` (f64),
`stable_dt` and `predicted_dt` (f32). -/
structure InputState where
  time : F
  stable_dt : F
  predicted_dt : F
deriving DecidableEq

/-- Per-identifier state of a bool animation: the eased value last returned
and the time it was computed. -/
structure BoolAnim where
  last_value : F
  last_tick : F
deriving DecidableEq

/-- Per-identifier state of a value animation: interpolation endpoints and
the time of the last retarget. -/
structure ValueAnim where
  from_value : F
  to_value : F
  toggle_time : F
deriving DecidableEq

/-- The animation store: two maps keyed by widget identifier. -/
structure AnimationManager where
  bools : Nat → Option BoolAnim
  values : Nat → Option ValueAnim

/-- The empty animation store (`AnimationManager::default`). -/
def AnimationManager.empty : AnimationManager :=
  ⟨fun _ => none, fun _ => none⟩

/-- Embedding of `AnimationManager::animate_bool`.  Returns the value
handed back to the caller together with the updated store. -/
def AnimationManager.animate_bool (m : AnimationManager) (input : InputState)
    (animation_time : F) (id : Nat) (value : Bool) : F × AnimationManager :=
  let se : F × F := if value then (F.finite 0, F.finite 1) else (F.finite 1, F.finite 0)
  match m.bools id with
  | none =>
      (se.2,
        { m with bools := fun j =>
            if j = id then some ⟨se.2, F.sub input.time input.stable_dt⟩ else m.bools j })
  | some anim =>
      let current_time := input.time
      let elapsed := F.fmin (F.sub current_time anim.last_tick) input.stable_dt
      let new_value := F.add anim.last_value (F.div (F.mul (F.sub se.2 se.1) elapsed) animation_time)
      let stored := if new_value.isFinite then new_value.clamp01 else se.2
      (stored,
        { m with bools := fun j => if j = id then some ⟨stored, current_time⟩ else m.bools j })

/-- Linear interpolation `start + t * (end - start)` (emath `lerp`). -/
def lerpF (ts te t : F) : F := F.add ts (F.mul t (F.sub te ts))

/-- Forward case of the remap: clamp `x` into `[fs, fe]` and map linearly
into `[ts, te]`. -/
def remapForward (x fs fe ts te : F) : F :=
  if F.le x fs then ts
  else if F.le fe x then te
  else
    let t := F.div (F.sub x fs) (F.sub fe fs)
    if F.le (F.finite 1) t then te else lerpF ts te t

/-- Modelled from the spec: `emath::remap_clamp` (the emath crate is not
under src/).  It computes the "current interpolated position" of an
animation: the input is clamped to the source range and mapped linearly
onto the target range; a reversed source range flips both ranges. -/
def remap_clamp (x fs fe ts te : F) : F :=
  if F.lt fe fs then remapForward x fe fs te ts else remapForward x fs fe ts te

/-- Embedding of `AnimationManager::animate_value`.  Returns the value
handed back to the caller together with the updated store. -/
def AnimationManager.animate_value (m : AnimationManager) (input : InputState)
    (animation_time : F) (id : Nat) (value : F) : F × AnimationManager :=
  match m.values id with
  | none =>
      (value,
        { m with values := fun j => if j = id then some ⟨value, value, F.neginf⟩ else m.values j })
  | some anim =>
      let time_since_toggle := F.sub input.time anim.toggle_time
      let time_since_toggle := F.add time_since_toggle (F.div input.predicted_dt (F.finite 2))
      let current_value :=
        remap_clamp time_since_toggle (F.finite 0) animation_time anim.from_value anim.to_value
      let anim1 : ValueAnim :=
        if F.beq anim.to_value value then anim
        else ⟨current_value, value, input.time⟩
      let anim2 : ValueAnim :=
        if F.beq animation_time (F.finite 0) then ⟨value, value, anim1.toggle_time⟩ else anim1
      (current_value,
        { m with values := fun j => if j = id then some anim2 else m.values j })

/-! ## Layers and areas (crates/egui/src/memory/mod.rs, `Areas`) -/

/-- Modelled from the spec: the six paint order classes of `Order`
(crates/egui/src/layers.rs is not under src/): background < low floating
stack < standard windows < foreground overlays < tooltip < debug, compared
by declaration order as Rust `derive(Ord)` does. -/
inductive Order where
  | Background
  | LowFloating
  | Middle
  | Foreground
  | Tooltip
  | Debug
deriving DecidableEq

/-- Discriminant of an order class, giving the derived `Ord`. -/
def Order.toNat : Order → Nat
  | Order.Background => 0
  | Order.LowFloating => 1
  | Order.Middle => 2
  | Order.Foreground => 3
  | Order.Tooltip => 4
  | Order.Debug => 5

/-- Rust `a.order.cmp(&b.order)` for the derived `Ord` on `Order`. -/
def Order.cmp (a b : Order) : Ordering := natCmp a.toNat b.toNat

/-- A layer identifier: an order class plus an opaque per-instance id. -/
structure LayerId where
  order : Order
  id : Nat
deriving DecidableEq

/-- Modelled from the spec: per-layer `AreaState`
(crates/egui/src/containers/area.rs is not under src/).  The claims treat
it as opaque data; only the `interactable` flag is given a name here. -/
structure AreaState where
  interactable : Bool
deriving DecidableEq

/-- Insert into a hash set modelled as a list (membership is all that is
ever queried). -/
def slinsert (l : List LayerId) (x : LayerId) : List LayerId :=
  if x ∈ l then l else x :: l

/-- Helper for `buildOrderMap`: the index of the last occurrence of `l`
counting from `i`. -/
def orderMapGo : List LayerId → Nat → LayerId → Option Nat
  | [], _, _ => none
  | x :: xs, i, l =>
      match orderMapGo xs (i + 1) l with
      | some j => some j
      | none => if x = l then some i else none

/-- Rust `self.order.iter().enumerate().map(|(i, id)| (*id, i)).collect()`:
the map from a layer to its index in the order list (for duplicate keys
the later index wins, as for `HashMap::collect`). -/
def buildOrderMap (order : List LayerId) : LayerId → Option Nat :=
  fun l => orderMapGo order 0 l

/-- The boolean `≤` on the sort key `(layer.order, wants.contains(layer))`
used by `end_pass`: lexicographic, with `false < true` on `Bool`. -/
def layerSortLE (wants : List LayerId) (a b : LayerId) : Bool :=
  decide (Order.toNat a.order < Order.toNat b.order) ||
    (decide (Order.toNat a.order = Order.toNat b.order) &&
      (!(decide (a ∈ wants)) || decide (b ∈ wants)))

/-- One step of the sublayer splice in `Areas::end_pass`: remove the
children from the order, then put `parent :: children` back in place of
the parent (in the traversal order of the `retain`). -/
def spliceOne (order : List LayerId) (parent : LayerId) (children : List LayerId) : List LayerId :=
  let moved := parent :: order.filter (fun l => decide (l ∈ children))
  let kept := order.filter (fun l => !(decide (l ∈ children)))
  match kept.findIdx? (fun l => decide (l = parent)) with
  | none => kept
  | some i => kept.take i ++ moved ++ kept.drop (i + 1)

/-- The whole sublayer splice loop of `Areas::end_pass` (the `HashMap`
iteration order is determinized as the list order). -/
def spliceSublayers (order : List LayerId) (subs : List (LayerId × List LayerId)) : List LayerId :=
  subs.foldl (fun o pc => spliceOne o pc.1 pc.2) order

/-- Embedding of `Areas`: the per-layer state map, the two visibility
generations, the back-to-front order list, the order map rebuilt at the
end of each pass, the bring-to-front requests and the sublayer relation. -/
structure Areas where
  areas : Nat → Option AreaState
  visible_areas_last_frame : List LayerId
  visible_areas_current_frame : List LayerId
  order : List LayerId
  order_map : LayerId → Option Nat
  wants_to_be_on_top : List LayerId
  sublayers : List (LayerId × List LayerId)

/-- `Areas::default()`. -/
def Areas.init : Areas :=
  ⟨fun _ => none, [], [], [], fun _ => none, [], []⟩

/-- Embedding of `Areas::compare_order`: order classes first, the order
map from the last pass as tie-break, with `None < Some(x)`. -/
def Areas.compare_order (s : Areas) (a b : LayerId) : Ordering :=
  match Order.cmp a.order b.order with
  | Ordering.eq => cmpOptNat (s.order_map a) (s.order_map b)
  | c => c

/-- Embedding of `Areas::set_state`: mark visible this pass, store the
state, append to the order if new. -/
def Areas.set_state (s : Areas) (layer_id : LayerId) (state : AreaState) : Areas :=
  { s with
    visible_areas_current_frame := slinsert s.visible_areas_current_frame layer_id,
    areas := fun j => if j = layer_id.id then some state else s.areas j,
    order := if layer_id ∈ s.order then s.order else s.order ++ [layer_id] }

/-- Embedding of `Areas::move_to_top`: mark visible, record the
bring-to-front request, append to the order if new. -/
def Areas.move_to_top (s : Areas) (layer_id : LayerId) : Areas :=
  { s with
    visible_areas_current_frame := slinsert s.visible_areas_current_frame layer_id,
    wants_to_be_on_top := slinsert s.wants_to_be_on_top layer_id,
    order := if layer_id ∈ s.order then s.order else s.order ++ [layer_id] }

/-- Embedding of `Areas::set_sublayer`: record the parent/child pair and
make sure both layers are in the order list. -/
def Areas.set_sublayer (s : Areas) (parent child : LayerId) : Areas :=
  let subs :=
    match s.sublayers.findIdx? (fun pc => decide (pc.1 = parent)) with
    | some i =>
        match s.sublayers.get? i with
        | some pc => s.sublayers.set i (parent, if child ∈ pc.2 then pc.2 else pc.2 ++ [child])
        | none => s.sublayers
    | none => s.sublayers ++ [(parent, [child])]
  let order1 := if parent ∈ s.order then s.order else s.order ++ [parent]
  let order2 := if child ∈ order1 then order1 else order1 ++ [child]
  { s with sublayers := subs, order := order2 }

/-- Embedding of `Areas::is_visible`: registered in this pass or the
previous one (two-frame hysteresis). -/
def Areas.is_visible (s : Areas) (layer_id : LayerId) : Bool :=
  decide (layer_id ∈ s.visible_areas_last_frame) ||
    decide (layer_id ∈ s.visible_areas_current_frame)

/-- Embedding of `Areas::end_pass`: swap the visibility generations and
clear the new one, stable-sort the order by `(order class, wants-top)`,
clear the requests, splice sublayers behind their parents, clear the
sublayer relation, and rebuild the order map from the final order. -/
def Areas.end_pass (s : Areas) : Areas :=
  let order1 := s.order.mergeSort (layerSortLE s.wants_to_be_on_top)
  let order2 := spliceSublayers order1 s.sublayers
  { areas := s.areas
    visible_areas_last_frame := s.visible_areas_current_frame
    visible_areas_current_frame := []
    order := order2
    order_map := buildOrderMap order2
    wants_to_be_on_top := []
    sublayers := [] }

/-- The `Areas` operations named by the claims: registrations via
`set_state` or `move_to_top`, and end-of-pass. -/
inductive AOp where
  | set_state (layer : LayerId) (state : AreaState)
  | move_to_top (layer : LayerId)
  | end_pass
deriving DecidableEq

/-- Apply one operation to an `Areas` state. -/
def applyAOp (s : Areas) : AOp → Areas
  | AOp.set_state layer state => s.set_state layer state
  | AOp.move_to_top layer => s.move_to_top layer
  | AOp.end_pass => s.end_pass

/-- Apply a sequence of operations, oldest first. -/
def applyAOps (s : Areas) : List AOp → Areas
  | [] => s
  | op :: ops => applyAOps (applyAOp s op) ops

/-- The operation sequence registers the layer (via `set_state` or
`move_to_top`). -/
def RegistersLayer (ops : List AOp) (l : LayerId) : Prop :=
  (∃ st, AOp.set_state l st ∈ ops) ∨ AOp.move_to_top l ∈ ops

/-- The operation sequence never registers the layer. -/
def NoRereg (ops : List AOp) (l : LayerId) : Prop :=
  (∀ st, AOp.set_state l st ∉ ops) ∧ AOp.move_to_top l ∉ ops

/-! ## Focus (crates/egui/src/memory/mod.rs, `Focus`) -/

/-- A rectangle; the focus claims never inspect its coordinates. -/
structure Rect where
  minX : ℚ
  minY : ℚ
  maxX : ℚ
  maxY : ℚ
deriving DecidableEq

/-- The navigation intent set from key presses (`FocusDirection`). -/
inductive FocusDirection where
  | Up
  | Right
  | Down
  | Left
  | Previous
  | Next
  | None
deriving DecidableEq

/-- `FocusDirection::is_cardinal`. -/
def FocusDirection.is_cardinal : FocusDirection → Bool
  | FocusDirection.Up => true
  | FocusDirection.Right => true
  | FocusDirection.Down => true
  | FocusDirection.Left => true
  | FocusDirection.Previous => false
  | FocusDirection.Next => false
  | FocusDirection.None => false

/-- The widget with focus (`FocusWidget`); the `EventFilter` field only
matters for the unmodelled input-event filtering and is omitted. -/
structure FocusWidget where
  id : Nat
deriving DecidableEq

/-- Embedding of `Focus` (the accesskit fields, compiled out by default,
and the cache of focus-interested rectangles — read only by the
f32-geometric directional search, see `Focus.end_pass` — are omitted). -/
structure Focus where
  focused_widget : Option FocusWidget
  id_previous_frame : Option Nat
  id_next_frame : Option Nat
  give_to_next : Bool
  last_interested : Option Nat
  focus_direction : FocusDirection
  top_modal_layer : Option LayerId
  top_modal_layer_current_frame : Option LayerId
deriving DecidableEq

/-- `Focus::focused`. -/
def Focus.focused (f : Focus) : Option Nat := f.focused_widget.map FocusWidget.id

/-- Embedding of `Focus::begin_pass` specialized to a raw input with no
events (the event loop then does nothing): remember who had focus,
fulfill a pending one-pass-delayed handoff, and reset the navigation
direction. -/
def Focus.begin_pass_no_events (f : Focus) : Focus :=
  { f with
    id_previous_frame := f.focused,
    focused_widget :=
      match f.id_next_frame with
      | some id => some ⟨id⟩
      | none => f.focused_widget,
    id_next_frame := none,
    focus_direction := FocusDirection.None }

/-- Does the used-identifier map of this pass contain the id
(`used_ids.contains_key`)? -/
def usedContains (used : List (Nat × Rect)) (id : Nat) : Bool :=
  used.any (fun p => decide (p.1 = id))

/-- Embedding of `Focus::end_pass`.  The result of the f32-geometric
`find_widget_in_direction` is passed in as `find_result` (it is consulted
only when the direction is cardinal; the claims below never are), then the
dead-man's switch runs: a focused widget that was already focused at the
start of the pass and was not used this pass loses focus.  Finally the
modal layer generation rolls over. -/
def Focus.end_pass (find_result : Option Nat) (f : Focus) (used_ids : List (Nat × Rect)) : Focus :=
  let f1 :=
    if f.focus_direction.is_cardinal then
      match find_result with
      | some w => { f with focused_widget := some ⟨w⟩ }
      | none => f
    else f
  let f2 :=
    match f1.focused_widget with
    | some fw =>
        if f1.id_previous_frame = some fw.id then
          if usedContains used_ids fw.id then f1
          else { f1 with focused_widget := none }
        else f1
    | none => f1
  { f2 with
    top_modal_layer := f2.top_modal_layer_current_frame,
    top_modal_layer_current_frame := none }

/-- Embedding of `Memory::request_focus` at the `Focus` level: give
keyboard focus to the widget unconditionally. -/
def Focus.request_focus (f : Focus) (id : Nat) : Focus :=
  { f with focused_widget := some ⟨id⟩ }

/-- Embedding of `Memory::has_focus` at the `Focus` level. -/
def Focus.has_focus (f : Focus) (id : Nat) : Bool :=
  decide (f.focused = some id)

/-! ## The widget registry (crates/egui/src/widget_rect.rs) -/

/-- Modelled from the spec: the capability set `Sense`
(crates/egui/src/sense.rs is not under src/): which interactions the
widget declares interest in.  `|=` is the pointwise union. -/
structure Sense where
  click : Bool
  drag : Bool
deriving DecidableEq

/-- Union of two capability sets (Rust `sense |= other`). -/
def Sense.or (a b : Sense) : Sense := ⟨a.click || b.click, a.drag || b.drag⟩

/-- Embedding of `WidgetRect`. -/
structure WidgetRect where
  id : Nat
  layer_id : LayerId
  rect : Rect
  interact_rect : Rect
  sense : Sense
  enabled : Bool
deriving DecidableEq

/-- Embedding of `WidgetRects`: all widgets of the pass, per layer in
painting order and by id with the index inside their layer.  The `infos`
diagnostics map is not modelled. -/
structure WidgetRects where
  by_layer : LayerId → List WidgetRect
  by_id : Nat → Option (Nat × WidgetRect)

/-- `WidgetRects::default()` (also the state after `clear`). -/
def WidgetRects.empty : WidgetRects := ⟨fun _ => [], fun _ => none⟩

/-- `WidgetRects::get`. -/
def WidgetRects.get (s : WidgetRects) (id : Nat) : Option WidgetRect :=
  (s.by_id id).map Prod.snd

/-- `WidgetRects::order`: in which layer, and at which index inside it. -/
def WidgetRects.order (s : WidgetRects) (id : Nat) : Option (LayerId × Nat) :=
  (s.by_id id).map (fun p => (p.2.layer_id, p.1))

/-- `WidgetRects::contains`. -/
def WidgetRects.contains (s : WidgetRects) (id : Nat) : Bool :=
  decide ((s.by_id id).isSome = true)

/-- Embedding of `WidgetRects::insert`.  A new id is appended at the end
of its layer; a known id is merged in place: rectangles are overwritten
(last writer wins), sense and enabled are or-ed, and the index inside the
layer is kept.  (The Rust `Vec` write `layer_widgets[idx] = existing` is a
`List.set`; inside the guarded branch the index is always in bounds.) -/
def WidgetRects.insert (s : WidgetRects) (layer_id : LayerId) (widget_rect : WidgetRect) :
    WidgetRects :=
  let layer_widgets := s.by_layer layer_id
  match s.by_id widget_rect.id with
  | none =>
      let idx_in_layer := layer_widgets.length
      { by_layer := fun l => if l = layer_id then layer_widgets ++ [widget_rect] else s.by_layer l,
        by_id := fun j => if j = widget_rect.id then some (idx_in_layer, widget_rect) else s.by_id j }
  | some (idx_in_layer, existing) =>
      let existing2 : WidgetRect :=
        { existing with
          rect := widget_rect.rect,
          interact_rect := widget_rect.interact_rect,
          sense := existing.sense.or widget_rect.sense,
          enabled := existing.enabled || widget_rect.enabled }
      { by_layer :=
          if existing2.layer_id = widget_rect.layer_id then
            fun l => if l = layer_id then layer_widgets.set idx_in_layer existing2 else s.by_layer l
          else s.by_layer,
        by_id := fun j => if j = widget_rect.id then some (idx_in_layer, existing2) else s.by_id j }

/-! ## The multi-pass loop (crates/egui/src/context.rs, `Context::run`) -/

/-- The slice of `PlatformOutput` driving the multi-pass loop: the
completed-pass counter and the discard-request diagnostics. -/
structure PlatformOutput where
  num_completed_passes : Nat
  request_discard_reasons : List String
deriving DecidableEq

/-- Modelled from the spec: `PlatformOutput::requested_discard`
(crates/egui/src/data/output.rs is not under src/): some discard reason
from the latest pass is still unfulfilled. -/
def PlatformOutput.requested_discard (o : PlatformOutput) : Bool :=
  !o.request_discard_reasons.isEmpty

/-- Modelled from the spec: `PlatformOutput::append` (data/output.rs is
not under src/) restricted to the two fields above: pass counters add up,
the newer discard reasons replace the older ones (inside `Context::run`
the older list has always just been cleared, so replacing and extending
agree there). -/
def PlatformOutput.append (o newer : PlatformOutput) : PlatformOutput :=
  { num_completed_passes := o.num_completed_passes + newer.num_completed_passes,
    request_discard_reasons := newer.request_discard_reasons }

/-- The state threaded through `Context::run`: the viewport's in-progress
output (`ctx.viewport().output`), the accumulated `FullOutput`'s platform
part, and an instrumentation counter of how many times the pass body ran. -/
structure RunState where
  viewport_output : PlatformOutput
  full_output : PlatformOutput
  body_runs : Nat
deriving DecidableEq

/-- The fresh state at the start of `Context::run`. -/
def RunState.init : RunState := ⟨⟨0, []⟩, ⟨0, []⟩, 0⟩

/-- Embedding of `Context::request_discard`: push the reason onto the
viewport output's diagnostics. -/
def Context.request_discard (s : RunState) (reason : String) : RunState :=
  { s with viewport_output :=
      { s.viewport_output with
        request_discard_reasons := s.viewport_output.request_discard_reasons ++ [reason] } }

/-- Embedding of `Context::will_discard`: a discard was requested and the
pass budget still allows one more pass. -/
def Context.will_discard (max_passes : Nat) (s : RunState) : Bool :=
  s.viewport_output.requested_discard &&
    decide (s.viewport_output.num_completed_passes + 1 < max_passes)

/-- Embedding of `ContextImpl::end_pass` restricted to the platform
output: take the viewport output (leaving a fresh default) and bump its
completed-pass counter.  The texture, font, shape and child-viewport
bookkeeping of `end_pass` does not touch these fields. -/
def ContextImpl.end_pass_output (s : RunState) : PlatformOutput × RunState :=
  let platform_output := s.viewport_output
  (⟨platform_output.num_completed_passes + 1, platform_output.request_discard_reasons⟩,
    { s with viewport_output := ⟨0, []⟩ })

/-- One iteration of the `loop` in `Context::run`: move the accumulated
pass count back into the viewport output and clear the accumulated
reasons, run the pass body (modelled as the list of `request_discard`
reasons it pushes on its k-th execution), then end the pass and append
its output. -/
def Context.run_iteration (body : Nat → List String) (s : RunState) : RunState :=
  let s1 : RunState :=
    { s with
      viewport_output :=
        { s.viewport_output with num_completed_passes := s.full_output.num_completed_passes },
      full_output := { num_completed_passes := 0, request_discard_reasons := [] } }
  let s2 : RunState :=
    { (body s1.body_runs).foldl Context.request_discard s1 with body_runs := s1.body_runs + 1 }
  let po := ContextImpl.end_pass_output s2
  { po.2 with full_output := po.2.full_output.append po.1 }

/-- The `loop` of `Context::run`, with explicit fuel.  The loop breaks as
soon as no discard is requested or the pass budget is exhausted; since
every iteration bumps the completed-pass counter by one, `max_passes`
fuel is enough whenever `1 ≤ max_passes` (the Rust `Options::max_passes`
is a `NonZeroUsize`). -/
def Context.run_loop (max_passes : Nat) (body : Nat → List String) :
    Nat → RunState → RunState
  | 0, s => s
  | fuel + 1, s =>
      let s2 := Context.run_iteration body s
      if !s2.full_output.requested_discard then s2
      else if max_passes ≤ s2.full_output.num_completed_passes then s2
      else Context.run_loop max_passes body fuel s2

/-- Embedding of `Context::run` for one frame. -/
def Context.run (max_passes : Nat) (body : Nat → List String) : RunState :=
  Context.run_loop max_passes body max_passes RunState.init

/-! ## Trace of repeated `animate_bool` calls with a fixed time step -/

/-- The input of the k-th subsequent call: the clock has advanced by
`(k + 1)` steps of length `d` past the stored tick time `t0`. -/
def animStepInput (t0 d sdt pdt : ℚ) (k : Nat) : InputState :=
  ⟨F.finite (t0 + ((k : ℚ) + 1) * d), F.finite sdt, F.finite pdt⟩

/-- The animation store after `k` subsequent `animate_bool(id, true)`
calls with animation time `a`. -/
def animSeqStates (m0 : AnimationManager) (id : Nat) (t0 d sdt pdt a : ℚ) :
    Nat → AnimationManager
  | 0 => m0
  | k + 1 =>
      (AnimationManager.animate_bool (animSeqStates m0 id t0 d sdt pdt a k)
        (animStepInput t0 d sdt pdt k) (F.finite a) id true).2

/-- The value returned by the k-th subsequent `animate_bool(id, true)`
call. -/
def animSeqVal (m0 : AnimationManager) (id : Nat) (t0 d sdt pdt a : ℚ) (k : Nat) : F :=
  (AnimationManager.animate_bool (animSeqStates m0 id t0 d sdt pdt a k)
    (animStepInput t0 d sdt pdt k) (F.finite a) id true).1

/-- The pure recurrence the stored eased value follows: add the per-step
increment and clamp at 1. -/
def wSeq (v0 e : ℚ) : Nat → ℚ
  | 0 => v0
  | k + 1 => min (wSeq v0 e k + e) 1

/-! ## Lemmas about the multi-pass loop -/

/-- Folding `request_discard` over a list of reasons appends them all to
the viewport output and changes nothing else. -/
theorem foldl_request_discard (l : List String) (s : RunState) :
    l.foldl Context.request_discard s =
      { s with viewport_output :=
          { s.viewport_output with
            request_discard_reasons := s.viewport_output.request_discard_reasons ++ l } } := by
  induction l generalizing s with
  | nil => simp
  | cons r rs ih =>
      simp [List.foldl, ih, Context.request_discard, List.append_assoc]

/-- Closed form of one iteration of the `Context::run` loop. -/
theorem run_iteration_eq (body : Nat → List String) (s : RunState) :
    Context.run_iteration body s =
      ⟨⟨0, []⟩,
       ⟨s.full_output.num_completed_passes + 1,
        s.viewport_output.request_discard_reasons ++ body s.body_runs⟩,
       s.body_runs + 1⟩ := by
  simp [Context.run_iteration, foldl_request_discard, ContextImpl.end_pass_output,
    PlatformOutput.append]

/-- Unfolding lemma for the fuelled loop. -/
theorem run_loop_succ (max_passes : Nat) (body : Nat → List String) (fuel : Nat) (s : RunState) :
    Context.run_loop max_passes body (fuel + 1) s =
      (if !(Context.run_iteration body s).full_output.requested_discard then
        Context.run_iteration body s
      else if max_passes ≤ (Context.run_iteration body s).full_output.num_completed_passes then
        Context.run_iteration body s
      else Context.run_loop max_passes body fuel (Context.run_iteration body s)) := rfl

/-- With a body that requests a discard on every execution, the loop runs
exactly `fuel` more times when `fuel` passes of budget remain. -/
theorem run_loop_discard (max_passes : Nat) (body : Nat → List String)
    (hb : ∀ k, body k ≠ []) :
    ∀ fuel s, 1 ≤ fuel →
      s.viewport_output.request_discard_reasons = [] →
      s.full_output.num_completed_passes + fuel = max_passes →
      (Context.run_loop max_passes body fuel s).body_runs = s.body_runs + fuel ∧
      (Context.run_loop max_passes body fuel s).full_output.num_completed_passes = max_passes ∧
      (Context.run_loop max_passes body fuel s).full_output.requested_discard = true := by
  intro fuel
  induction fuel with
  | zero => intro s h1 _ _; omega
  | succ f ih =>
      intro s _ hv hp
      have hbody : body s.body_runs ≠ [] := hb s.body_runs
      have hne : (s.viewport_output.request_discard_reasons ++ body s.body_runs) ≠ [] := by
        simp [hv, hbody]
      rw [run_loop_succ, run_iteration_eq]
      rcases Nat.eq_zero_or_pos f with hf0 | hfpos
      · subst hf0
        have hle : max_passes ≤ s.full_output.num_completed_passes + 1 := by omega
        refine ⟨?_, ?_, ?_⟩
        · simp [PlatformOutput.requested_discard, hne, hle]
        · simp [PlatformOutput.requested_discard, hne, hle]
          omega
        · simp [PlatformOutput.requested_discard, hne, hle]
      · have hlt : ¬ max_passes ≤ s.full_output.num_completed_passes + 1 := by omega
        have h2 := ih ⟨⟨0, []⟩,
            ⟨s.full_output.num_completed_passes + 1,
             s.viewport_output.request_discard_reasons ++ body s.body_runs⟩,
            s.body_runs + 1⟩ hfpos rfl
            (show s.full_output.num_completed_passes + 1 + f = max_passes by omega)
        simp only [PlatformOutput.requested_discard] at h2 ⊢
        refine ⟨?_, ?_, ?_⟩
        · simp [hne, hlt]
          rw [h2.1]
          omega
        · simpa [hne, hlt] using h2.2.1
        · simpa [hne, hlt] using h2.2.2

/-! ## Claims C2 and C3: the bounded multi-pass protocol -/

/-- C2: with max-passes `N ≥ 1`, a pass body that unconditionally calls
`request_discard` makes `Context::run` execute the body exactly `N` times,
and the returned output has `num_completed_passes = N` and
`requested_discard() = true`; with max-passes 2 and a body that requests a
discard only on its first execution, the final output has
`requested_discard() = false`. -/
theorem C2_bounded_multipass_convergence :
    (∀ (N : Nat) (body : Nat → List String), 1 ≤ N → (∀ k, body k ≠ []) →
      (Context.run N body).body_runs = N ∧
      (Context.run N body).full_output.num_completed_passes = N ∧
      (Context.run N body).full_output.requested_discard = true) ∧
    (∀ reason : String,
      (Context.run 2 (fun k => if k = 0 then [reason] else [])).full_output.requested_discard
        = false) := by
  constructor
  · intro N body hN hb
    have h := run_loop_discard N body hb N RunState.init hN rfl (by simp [RunState.init])
    simpa [Context.run, RunState.init] using h
  · intro reason
    rfl

/-- Witness for C2 at `N = 3` with a body that always asks for a discard,
and at the concrete discard-once body. -/
theorem C2_witness :
    (1 ≤ 3 ∧ (∀ k : Nat, (fun _ : Nat => ["resize"]) k ≠ [])) ∧
    (Context.run 3 (fun _ => ["resize"])).body_runs = 3 ∧
    (Context.run 3 (fun _ => ["resize"])).full_output.num_completed_passes = 3 ∧
    (Context.run 3 (fun _ => ["resize"])).full_output.requested_discard = true ∧
    (Context.run 2 (fun k => if k = 0 then ["resize"] else [])).full_output.requested_discard
      = false := by
  have h := C2_bounded_multipass_convergence.1 3 (fun _ => ["resize"])
    (by decide) (fun k => by simp)
  have h2 := C2_bounded_multipass_convergence.2 "resize"
  exact ⟨⟨by decide, fun k => by simp⟩, h.1, h.2.1, h.2.2, h2⟩

/-- C3: with max-passes 1 the pass body is never executed a second time,
and `will_discard` is false at every reachable point of the pass,
including immediately after a `request_discard` call. -/
theorem C3_single_pass_idempotence :
    (∀ body : Nat → List String, (Context.run 1 body).body_runs = 1) ∧
    (∀ s : RunState, Context.will_discard 1 s = false) ∧
    (∀ (s : RunState) (reason : String),
      Context.will_discard 1 (Context.request_discard s reason) = false) := by
  refine ⟨?_, ?_, ?_⟩
  · intro body
    have h1 : (1 : Nat) = 0 + 1 := rfl
    rw [Context.run, h1, run_loop_succ, run_iteration_eq]
    have hle : 0 + 1 ≤ (RunState.init.full_output.num_completed_passes + 1) := by
      simp [RunState.init]
    rcases h : ([] ++ body RunState.init.body_runs).isEmpty with hfalse | htrue
    · simp [PlatformOutput.requested_discard, h, RunState.init]
    · simp [PlatformOutput.requested_discard, h, RunState.init]
  · intro s
    have h : ¬ (s.viewport_output.num_completed_passes + 1 < 1) := by omega
    simp [Context.will_discard, h]
  · intro s reason
    have h : ¬ ((Context.request_discard s reason).viewport_output.num_completed_passes + 1 < 1) := by
      omega
    simp [Context.will_discard, h]

/-! ## Claims C8 and C9: the widget registry -/

/-- Helper for C9: one `insert` never turns a stored enabled flag from
true to false, for any registered identifier. -/
theorem insert_keeps_enabled (s : WidgetRects) (layer : LayerId) (w : WidgetRect)
    (id : Nat) (idx : Nat) (ex : WidgetRect)
    (hid : s.by_id id = some (idx, ex)) (hen : ex.enabled = true) :
    ∃ idx2 ex2, (s.insert layer w).by_id id = some (idx2, ex2) ∧ ex2.enabled = true := by
  by_cases hw : w.id = id
  · subst hw
    rw [WidgetRects.insert, hid]
    exact ⟨idx, ({ ex with rect := w.rect, interact_rect := w.interact_rect, sense := ex.sense.or w.sense, enabled := ex.enabled || w.enabled } : WidgetRect), by simp, by simp [hen]⟩
  · have hw2 : ¬ id = w.id := fun h => hw h.symm
    rcases hcase : s.by_id w.id with _ | ⟨idx3, ex3⟩
    · rw [WidgetRects.insert, hcase]
      exact ⟨idx, ex, by simp [hw2, hid], hen⟩
    · rw [WidgetRects.insert, hcase]
      by_cases hl : ex3.layer_id = w.layer_id
      · simp only [hl, if_pos rfl]
        exact ⟨idx, ex, by simp [hw2, hid], hen⟩
      · simp only [if_neg hl]
        exact ⟨idx, ex, by simp [hw2, hid], hen⟩

/-- C8: re-registering an identifier already present in the same layer
merges: the newly given rectangles win, the sense becomes the union of
the old and new senses, and the index inside the layer order is the one
from the first registration; a fresh identifier is appended after all
previously registered widgets of its layer. -/
theorem C8_insert_merges_and_appends (s : WidgetRects) (layer : LayerId) (w : WidgetRect) :
    (∀ idx ex, s.by_id w.id = some (idx, ex) → ex.layer_id = w.layer_id →
      layer = w.layer_id →
      (s.insert layer w).get w.id =
        some { ex with
          rect := w.rect,
          interact_rect := w.interact_rect,
          sense := ex.sense.or w.sense,
          enabled := ex.enabled || w.enabled } ∧
      (s.insert layer w).order w.id = some (w.layer_id, idx) ∧
      s.order w.id = some (w.layer_id, idx)) ∧
    (s.by_id w.id = none → layer = w.layer_id →
      (s.insert layer w).order w.id = some (w.layer_id, (s.by_layer layer).length) ∧
      (s.insert layer w).by_layer layer = s.by_layer layer ++ [w]) := by
  constructor
  · intro idx ex hid hlay harg
    rw [WidgetRects.insert, hid]
    refine ⟨?_, ?_, ?_⟩
    · simp [WidgetRects.get]
    · simp [WidgetRects.order, hlay]
    · simp [WidgetRects.order, hid, hlay]
  · intro hid harg
    rw [WidgetRects.insert, hid]
    subst harg
    constructor
    · simp [WidgetRects.order]
    · simp

/-- Witness for C8: a concrete merge followed by a fresh insertion. -/
theorem C8_witness :
    (WidgetRects.empty.insert ⟨Order.Middle, 0⟩
        ⟨4, ⟨Order.Middle, 0⟩, ⟨0, 0, 1, 1⟩, ⟨0, 0, 1, 1⟩, ⟨true, false⟩, true⟩ |>.insert
        ⟨Order.Middle, 0⟩
        ⟨4, ⟨Order.Middle, 0⟩, ⟨0, 0, 2, 2⟩, ⟨0, 0, 2, 2⟩, ⟨false, true⟩, true⟩ |>.get 4) =
      some ⟨4, ⟨Order.Middle, 0⟩, ⟨0, 0, 2, 2⟩, ⟨0, 0, 2, 2⟩, ⟨true, true⟩, true⟩ := by
  have h := (C8_insert_merges_and_appends
    (WidgetRects.empty.insert ⟨Order.Middle, 0⟩
      ⟨4, ⟨Order.Middle, 0⟩, ⟨0, 0, 1, 1⟩, ⟨0, 0, 1, 1⟩, ⟨true, false⟩, true⟩)
    ⟨Order.Middle, 0⟩
    ⟨4, ⟨Order.Middle, 0⟩, ⟨0, 0, 2, 2⟩, ⟨0, 0, 2, 2⟩, ⟨false, true⟩, true⟩).1
    0 ⟨4, ⟨Order.Middle, 0⟩, ⟨0, 0, 1, 1⟩, ⟨0, 0, 1, 1⟩, ⟨true, false⟩, true⟩
    (by decide) (by decide) (by decide)
  simpa [Sense.or] using h.1

/-- C9: the enabled flag merges by logical or, so a widget registered
enabled cannot be disabled by a later `insert` of the same identifier, and
across any sequence of further insertions a stored true flag stays true. -/
theorem C9_enabled_merges_by_or (s : WidgetRects) :
    (∀ layer w idx ex, s.by_id w.id = some (idx, ex) →
      (s.insert layer w).get w.id =
        some { ex with
          rect := w.rect,
          interact_rect := w.interact_rect,
          sense := ex.sense.or w.sense,
          enabled := ex.enabled || w.enabled } ∧
      (ex.enabled = true → w.enabled = false →
        ((s.insert layer w).get w.id).map WidgetRect.enabled = some true)) ∧
    (∀ (ws : List (LayerId × WidgetRect)) (id : Nat) (idx : Nat) (ex : WidgetRect),
      s.by_id id = some (idx, ex) → ex.enabled = true →
      ∃ idx2 ex2,
        (ws.foldl (fun t p => t.insert p.1 p.2) s).by_id id = some (idx2, ex2) ∧
        ex2.enabled = true) := by
  constructor
  · intro layer w idx ex hid
    constructor
    · rw [WidgetRects.insert, hid]
      simp [WidgetRects.get]
    · intro hen hwen
      rw [WidgetRects.insert, hid]
      simp [WidgetRects.get, hen]
  · intro ws
    induction ws generalizing s with
    | nil => intro id idx ex hid hen; exact ⟨idx, ex, hid, hen⟩
    | cons p ps ih =>
        intro id idx ex hid hen
        obtain ⟨idx2, ex2, hid2, hen2⟩ := insert_keeps_enabled s p.1 p.2 id idx ex hid hen
        exact ih (s.insert p.1 p.2) id idx2 ex2 hid2 hen2

/-- Witness for C9: a widget registered enabled, then re-registered
disabled, stays enabled. -/
theorem C9_witness :
    ((WidgetRects.empty.insert ⟨Order.Middle, 0⟩
        ⟨4, ⟨Order.Middle, 0⟩, ⟨0, 0, 1, 1⟩, ⟨0, 0, 1, 1⟩, ⟨true, false⟩, true⟩ |>.insert
        ⟨Order.Middle, 0⟩
        ⟨4, ⟨Order.Middle, 0⟩, ⟨0, 0, 1, 1⟩, ⟨0, 0, 1, 1⟩, ⟨true, false⟩, false⟩ |>.get 4).map
      WidgetRect.enabled) = some true := by
  have h := (C9_enabled_merges_by_or
    (WidgetRects.empty.insert ⟨Order.Middle, 0⟩
      ⟨4, ⟨Order.Middle, 0⟩, ⟨0, 0, 1, 1⟩, ⟨0, 0, 1, 1⟩, ⟨true, false⟩, true⟩)).1
    ⟨Order.Middle, 0⟩ ⟨4, ⟨Order.Middle, 0⟩, ⟨0, 0, 1, 1⟩, ⟨0, 0, 1, 1⟩, ⟨true, false⟩, false⟩
    0 ⟨4, ⟨Order.Middle, 0⟩, ⟨0, 0, 1, 1⟩, ⟨0, 0, 1, 1⟩, ⟨true, false⟩, true⟩
    (by decide)
  exact h.2 (by decide) (by decide)

/-! ## Evaluation lemmas for the float model -/

@[simp] theorem F.isFinite_finite (q : ℚ) : (F.finite q).isFinite = true := rfl

@[simp] theorem F.isFinite_inf : F.isFinite F.inf = false := rfl

@[simp] theorem F.isFinite_neginf : F.isFinite F.neginf = false := rfl

@[simp] theorem F.isFinite_nan : F.isFinite F.nan = false := rfl

@[simp] theorem F.neg_finite (q : ℚ) : (F.finite q).neg = F.finite (-q) := rfl

@[simp] theorem F.add_finite (a b : ℚ) : (F.finite a).add (F.finite b) = F.finite (a + b) := rfl

@[simp] theorem F.sub_finite (a b : ℚ) : (F.finite a).sub (F.finite b) = F.finite (a - b) := by
  show F.finite (a + -b) = F.finite (a - b)
  rw [sub_eq_add_neg]

@[simp] theorem F.sub_finite_neginf (a : ℚ) : (F.finite a).sub F.neginf = F.inf := rfl

@[simp] theorem F.add_inf_finite (b : ℚ) : F.inf.add (F.finite b) = F.inf := rfl

@[simp] theorem F.mul_finite (a b : ℚ) : (F.finite a).mul (F.finite b) = F.finite (a * b) := rfl

@[simp] theorem F.div_finite (a b : ℚ) :
    (F.finite a).div (F.finite b) =
      if b = 0 then (if a = 0 then F.nan else if 0 < a then F.inf else F.neginf)
      else F.finite (a / b) := rfl

@[simp] theorem F.le_finite (a b : ℚ) : (F.finite a).le (F.finite b) = decide (a ≤ b) := rfl

@[simp] theorem F.le_finite_inf (a : ℚ) : (F.finite a).le F.inf = true := rfl

@[simp] theorem F.le_inf_finite (a : ℚ) : F.inf.le (F.finite a) = false := rfl

@[simp] theorem F.lt_finite (a b : ℚ) : (F.finite a).lt (F.finite b) = decide (a < b) := rfl

@[simp] theorem F.beq_finite (a b : ℚ) : (F.finite a).beq (F.finite b) = decide (a = b) := rfl

@[simp] theorem F.fmin_finite (a b : ℚ) :
    (F.finite a).fmin (F.finite b) = F.finite (min a b) := by
  show (if (F.finite a).le (F.finite b) then F.finite a else F.finite b) = F.finite (min a b)
  by_cases h : a ≤ b
  · simp [h, min_eq_left h]
  · simp [h, min_eq_right (le_of_not_le h)]

@[simp] theorem F.clamp01_finite (q : ℚ) : (F.finite q).clamp01 = F.finite (min (max q 0) 1) := rfl

/-! ## Claim C10: animate_bool is safe against non-finite arithmetic -/

/-- C10: `animate_bool` always hands back a finite value in `[0, 1]`,
whatever the stored state, inputs and animation time (including zero and
negative animation times); and whenever the interpolation step (which
divides by the animation time) is non-finite, the returned and stored
value is exactly the target end value. -/
theorem C10_animate_bool_finite (m : AnimationManager) (input : InputState)
    (animation_time : F) (id : Nat) (value : Bool) :
    (∃ q : ℚ, (m.animate_bool input animation_time id value).1 = F.finite q ∧
      0 ≤ q ∧ q ≤ 1) ∧
    (∀ anim, m.bools id = some anim →
      (F.add anim.last_value
          (F.div (F.mul (F.sub (if value then F.finite 1 else F.finite 0)
            (if value then F.finite 0 else F.finite 1))
            (F.fmin (F.sub input.time anim.last_tick) input.stable_dt)) animation_time)).isFinite
        = false →
      (m.animate_bool input animation_time id value).1 =
        (if value then F.finite 1 else F.finite 0) ∧
      (m.animate_bool input animation_time id value).2.bools id =
        some ⟨if value then F.finite 1 else F.finite 0, input.time⟩) := by
  constructor
  · rcases hcase : m.bools id with _ | anim
    · rw [AnimationManager.animate_bool]
      rcases value with _ | _
      · exact ⟨0, by simp [hcase], by norm_num⟩
      · exact ⟨1, by simp [hcase], by norm_num⟩
    · rw [AnimationManager.animate_bool]
      simp only [hcase]
      rcases hfin : (F.add anim.last_value
          (F.div (F.mul (F.sub (if value then (F.finite 0, F.finite 1) else (F.finite 1, F.finite 0)).2
            (if value then (F.finite 0, F.finite 1) else (F.finite 1, F.finite 0)).1)
            (F.fmin (F.sub input.time anim.last_tick) input.stable_dt)) animation_time)) with q | _ | _ | _
      · refine ⟨min (max q 0) 1, ?_, ?_, ?_⟩
        · simp [hfin, F.isFinite, F.clamp01]
        · simp
        · simp
      · rcases value with _ | _
        · exact ⟨0, by simp [hfin, F.isFinite], by norm_num⟩
        · exact ⟨1, by simp [hfin, F.isFinite], by norm_num⟩
      · rcases value with _ | _
        · exact ⟨0, by simp [hfin, F.isFinite], by norm_num⟩
        · exact ⟨1, by simp [hfin, F.isFinite], by norm_num⟩
      · rcases value with _ | _
        · exact ⟨0, by simp [hfin, F.isFinite], by norm_num⟩
        · exact ⟨1, by simp [hfin, F.isFinite], by norm_num⟩
  · intro anim hanim hnotfin
    rw [AnimationManager.animate_bool]
    simp only [hanim]
    rcases value with _ | _
    · simp only [Bool.false_eq_true, if_false] at hnotfin ⊢
      simp only [F.sub_finite] at hnotfin
      norm_num at hnotfin
      simp [hnotfin]
    · simp only [if_true] at hnotfin ⊢
      simp only [F.sub_finite] at hnotfin
      norm_num at hnotfin
      simp [hnotfin]

/-- Witness for C10: with a zero animation time the interpolation step is
infinite and the call still returns the end value 1. -/
theorem C10_witness :
    ((AnimationManager.mk (fun j => if j = 0 then some ⟨F.finite 0, F.finite 0⟩ else none)
        (fun _ => none)).animate_bool ⟨F.finite 1, F.finite 1, F.finite 0⟩
        (F.finite 0) 0 true).1 = F.finite 1 := by
  have h := (C10_animate_bool_finite
    (AnimationManager.mk (fun j => if j = 0 then some ⟨F.finite 0, F.finite 0⟩ else none)
      (fun _ => none)) ⟨F.finite 1, F.finite 1, F.finite 0⟩ (F.finite 0) 0 true).2
    ⟨F.finite 0, F.finite 0⟩ (by simp)
    (by norm_num [F.add, F.div, F.mul, F.isFinite])
  simpa using h.1

/-! ## Claim C7: animate_value retargeting -/

/-- Remapping a finite input into the degenerate source range `[0, 0]` and
the degenerate target range `[v, v]` yields `v`. -/
theorem remap_clamp_degenerate (x : ℚ) (v : F) :
    remap_clamp (F.finite x) (F.finite 0) (F.finite 0) v v = v := by
  by_cases h : x ≤ 0
  · simp [remap_clamp, remapForward, h]
  · have h2 : (0 : ℚ) ≤ x := le_of_not_le h
    simp [remap_clamp, remapForward, h, h2]

/-- C7 as amended: the first query snaps to the given value and stores it
with the toggle time long ago; on a retarget with a nonzero animation
time, the stored start value becomes the value just returned (the current
interpolated position, not the old target) and the toggle time becomes the
current time; with a zero animation time the stored state snaps to the new
target — so the next query returns it — while the call itself still
returns the previous animation's clamped value. -/
theorem C7_animate_value_retarget :
    (∀ (m : AnimationManager) (input : InputState) (animation_time : F) (id : Nat) (value : F),
      m.values id = none →
      (m.animate_value input animation_time id value).1 = value ∧
      (m.animate_value input animation_time id value).2.values id =
        some ⟨value, value, F.neginf⟩) ∧
    (∀ (m : AnimationManager) (input : InputState) (animation_time : F) (id : Nat) (value : F)
      (anim : ValueAnim),
      m.values id = some anim →
      F.beq anim.to_value value = false →
      F.beq animation_time (F.finite 0) = false →
      (m.animate_value input animation_time id value).2.values id =
        some ⟨(m.animate_value input animation_time id value).1, value, input.time⟩) ∧
    (∀ (m : AnimationManager) (input : InputState) (id : Nat) (vq τ : ℚ) (anim : ValueAnim),
      m.values id = some anim →
      F.beq anim.to_value (F.finite vq) = false →
      input.time = F.finite τ →
      (m.animate_value input (F.finite 0) id (F.finite vq)).2.values id =
        some ⟨F.finite vq, F.finite vq, F.finite τ⟩ ∧
      (∀ (input2 : InputState) (τ2 ρ2 : ℚ), input2.time = F.finite τ2 →
        input2.predicted_dt = F.finite ρ2 →
        (((m.animate_value input (F.finite 0) id (F.finite vq)).2).animate_value input2
            (F.finite 0) id (F.finite vq)).1 = F.finite vq)) := by
  refine ⟨?_, ?_, ?_⟩
  · intro m input animation_time id value h
    rw [AnimationManager.animate_value]
    simp [h]
  · intro m input animation_time id value anim hsome hbeq hzero
    rw [AnimationManager.animate_value]
    simp [hsome, hbeq, hzero]
  · intro m input id vq τ anim hsome hbeq htime
    have hstored :
        (m.animate_value input (F.finite 0) id (F.finite vq)).2.values id =
          some ⟨F.finite vq, F.finite vq, F.finite τ⟩ := by
      rw [AnimationManager.animate_value]
      simp [hsome, hbeq, htime]
    refine ⟨hstored, ?_⟩
    intro input2 τ2 ρ2 htime2 hdt2
    rw [AnimationManager.animate_value]
    simp only [hstored]
    have hts : F.add (F.sub input2.time (F.finite τ))
        (F.div input2.predicted_dt (F.finite 2)) = F.finite ((τ2 - τ) + ρ2 / 2) := by
      rw [htime2, hdt2]
      norm_num
    simp only [hts, remap_clamp_degenerate]

/-- Counterexample to C7 as stated: seed an animation at value 0, then
retarget to 1 with a zero animation time; the claim says the returned
value snaps immediately to the new target 1, but the call returns the
previous animation's value 0 (the snap is only visible from the next
query on). -/
theorem C7_counterexample :
    (((AnimationManager.empty.animate_value ⟨F.finite 0, F.finite 1, F.finite 1⟩ (F.finite 0) 0
        (F.finite 0)).2).animate_value ⟨F.finite 1, F.finite 1, F.finite 1⟩ (F.finite 0) 0
        (F.finite 1)).1 = F.finite 0 ∧
    F.finite (0 : ℚ) ≠ F.finite 1 := by
  constructor
  · have h1 : (AnimationManager.empty.animate_value ⟨F.finite 0, F.finite 1, F.finite 1⟩
        (F.finite 0) 0 (F.finite 0)).2.values 0 = some ⟨F.finite 0, F.finite 0, F.neginf⟩ := by
      rw [AnimationManager.animate_value]
      simp [AnimationManager.empty]
    rw [AnimationManager.animate_value]
    simp only [h1]
    norm_num [remap_clamp, remapForward, F.sub, F.neg, F.add, F.div, F.le, F.lt]
  · intro h
    rw [F.finite.injEq] at h
    norm_num at h

/-- Witness for the amended C7: a concrete retarget with zero animation
time stores the snap and the next query returns the new target. -/
theorem C7_witness :
    ((AnimationManager.mk (fun _ => none)
        (fun j => if j = 9 then some ⟨F.finite 0, F.finite 0, F.finite 0⟩ else none)).animate_value
        ⟨F.finite 1, F.finite 1, F.finite 1⟩ (F.finite 0) 9 (F.finite 1)).2.values 9 =
      some ⟨F.finite 1, F.finite 1, F.finite 1⟩ ∧
    ((((AnimationManager.mk (fun _ => none)
        (fun j => if j = 9 then some ⟨F.finite 0, F.finite 0, F.finite 0⟩ else none)).animate_value
        ⟨F.finite 1, F.finite 1, F.finite 1⟩ (F.finite 0) 9 (F.finite 1)).2).animate_value
        ⟨F.finite 2, F.finite 1, F.finite 1⟩ (F.finite 0) 9 (F.finite 1)).1 = F.finite 1 := by
  have h := C7_animate_value_retarget.2.2
    (AnimationManager.mk (fun _ => none)
      (fun j => if j = 9 then some ⟨F.finite 0, F.finite 0, F.finite 0⟩ else none))
    ⟨F.finite 1, F.finite 1, F.finite 1⟩ 9 1 1 ⟨F.finite 0, F.finite 0, F.finite 0⟩
    (by simp) (by norm_num [F.beq]) rfl
  exact ⟨h.1, h.2 ⟨F.finite 2, F.finite 1, F.finite 1⟩ 2 1 rfl rfl⟩

/-! ## Claim C6: monotone convergence of animate_bool -/

/-- One `animate_bool(id, true)` step on a finite stored state with finite
inputs and nonzero animation time: the new value is the clamped old value
plus the capped elapsed time over the animation time. -/
theorem animate_bool_finite_step (m : AnimationManager) (id : Nat) (pdt : F)
    (v tick tq sdt a : ℚ)
    (hm : m.bools id = some ⟨F.finite v, F.finite tick⟩) (hane : ¬ a = 0) :
    (m.animate_bool ⟨F.finite tq, F.finite sdt, pdt⟩ (F.finite a) id true).1 =
      F.finite (min (max (v + min (tq - tick) sdt / a) 0) 1) ∧
    (m.animate_bool ⟨F.finite tq, F.finite sdt, pdt⟩ (F.finite a) id true).2.bools id =
      some ⟨F.finite (min (max (v + min (tq - tick) sdt / a) 0) 1), F.finite tq⟩ := by
  rw [AnimationManager.animate_bool]
  simp [hm, hane]

/-- The recurrence stays nonnegative. -/
theorem wSeq_nonneg (v0 e : ℚ) (hv0 : 0 ≤ v0) (he : 0 ≤ e) :
    ∀ k, 0 ≤ wSeq v0 e k := by
  intro k
  induction k with
  | zero => simpa [wSeq] using hv0
  | succ k ih =>
      rw [wSeq]
      exact le_min (by linarith) (by norm_num)

/-- The recurrence never exceeds 1. -/
theorem wSeq_le_one (v0 e : ℚ) (hv1 : v0 ≤ 1) : ∀ k, wSeq v0 e k ≤ 1 := by
  intro k
  induction k with
  | zero => simpa [wSeq] using hv1
  | succ k _ => rw [wSeq]; exact min_le_right _ _

/-- The recurrence is non-decreasing. -/
theorem wSeq_mono (v0 e : ℚ) (hv1 : v0 ≤ 1) (he : 0 ≤ e) :
    ∀ k, wSeq v0 e k ≤ wSeq v0 e (k + 1) := by
  intro k
  rw [wSeq]
  exact le_min (by linarith) (wSeq_le_one v0 e hv1 k)

/-- The recurrence dominates the unclamped linear ramp capped at 1. -/
theorem wSeq_lower (v0 e : ℚ) (he : 0 ≤ e) :
    ∀ k : ℕ, min (v0 + (k : ℚ) * e) 1 ≤ wSeq v0 e k := by
  intro k
  induction k with
  | zero => simp [wSeq]
  | succ k ih =>
      rw [wSeq]
      push_cast
      rcases le_total 1 (v0 + k * e) with h1 | h1
      · have hk : min (v0 + (k : ℚ) * e) 1 = 1 := min_eq_right h1
        rw [hk] at ih
        refine le_min ?_ ?_
        · have : (1 : ℚ) ≤ wSeq v0 e k + e := by linarith
          calc min (v0 + ((k : ℚ) + 1) * e) 1 ≤ 1 := min_le_right _ _
            _ ≤ wSeq v0 e k + e := this
        · exact min_le_right _ _
      · have hk : min (v0 + (k : ℚ) * e) 1 = v0 + k * e := min_eq_left h1
        rw [hk] at ih
        refine le_min ?_ ?_
        · have : v0 + ((k : ℚ) + 1) * e ≤ wSeq v0 e k + e := by ring_nf; ring_nf at ih; linarith
          calc min (v0 + ((k : ℚ) + 1) * e) 1 ≤ v0 + ((k : ℚ) + 1) * e := min_le_left _ _
            _ ≤ wSeq v0 e k + e := this
        · exact min_le_right _ _

/-- With a positive increment the recurrence reaches 1 and stays there. -/
theorem wSeq_eventually_one (v0 e : ℚ) (hv1 : v0 ≤ 1) (he : 0 < e) :
    ∃ n, ∀ m, n ≤ m → wSeq v0 e m = 1 := by
  obtain ⟨n, hn⟩ := exists_nat_ge ((1 - v0) / e)
  have hramp : 1 ≤ v0 + (n : ℚ) * e := by
    have := (div_le_iff₀ he).mp hn
    linarith
  have hone : wSeq v0 e n = 1 := by
    have hl := wSeq_lower v0 e (le_of_lt he) n
    have : min (v0 + (n : ℚ) * e) 1 = 1 := min_eq_right hramp
    rw [this] at hl
    exact le_antisymm (wSeq_le_one v0 e hv1 n) hl
  refine ⟨n, ?_⟩
  intro m hm
  induction m, hm using Nat.le_induction with
  | base => exact hone
  | succ m _ ih =>
      have h1 := wSeq_mono v0 e hv1 (le_of_lt he) m
      rw [ih] at h1
      exact le_antisymm (wSeq_le_one v0 e hv1 (m + 1)) h1

/-- Invariant of the repeated-call trace: after `k` steps the store holds
the recurrence value and the advancing tick time. -/
theorem animSeq_state_invariant (m0 : AnimationManager) (id : Nat) (t0 d sdt pdt a v0 : ℚ)
    (h0 : m0.bools id = some ⟨F.finite v0, F.finite t0⟩)
    (hv0 : 0 ≤ v0) (hv1 : v0 ≤ 1) (hd : 0 < d) (hs : 0 < sdt) (ha : 0 < a) :
    ∀ k, (animSeqStates m0 id t0 d sdt pdt a k).bools id =
      some ⟨F.finite (wSeq v0 (min d sdt / a) k), F.finite (t0 + (k : ℚ) * d)⟩ := by
  have hane : ¬ a = 0 := ne_of_gt ha
  have he : 0 ≤ min d sdt / a :=
    div_nonneg (le_of_lt (lt_min hd hs)) (le_of_lt ha)
  intro k
  induction k with
  | zero => simpa [animSeqStates, wSeq] using h0
  | succ k ih =>
      have hstep := (animate_bool_finite_step (animSeqStates m0 id t0 d sdt pdt a k) id
        (F.finite pdt) (wSeq v0 (min d sdt / a) k) (t0 + (k : ℚ) * d)
        (t0 + ((k : ℚ) + 1) * d) sdt a ih hane).2
      have harith : (t0 + ((k : ℚ) + 1) * d) - (t0 + (k : ℚ) * d) = d := by ring
      rw [harith] at hstep
      have hmax : max (wSeq v0 (min d sdt / a) k + min d sdt / a) 0
          = wSeq v0 (min d sdt / a) k + min d sdt / a :=
        max_eq_left (add_nonneg (wSeq_nonneg v0 _ hv0 he k) he)
      rw [hmax] at hstep
      show (AnimationManager.animate_bool (animSeqStates m0 id t0 d sdt pdt a k)
        (animStepInput t0 d sdt pdt k) (F.finite a) id true).2.bools id = _
      rw [show animStepInput t0 d sdt pdt k =
        ⟨F.finite (t0 + ((k : ℚ) + 1) * d), F.finite sdt, F.finite pdt⟩ from rfl]
      rw [hstep, wSeq]
      push_cast
      rfl

/-- The value handed back by the k-th subsequent call is the recurrence
value after `k + 1` steps. -/
theorem animSeqVal_eq (m0 : AnimationManager) (id : Nat) (t0 d sdt pdt a v0 : ℚ)
    (h0 : m0.bools id = some ⟨F.finite v0, F.finite t0⟩)
    (hv0 : 0 ≤ v0) (hv1 : v0 ≤ 1) (hd : 0 < d) (hs : 0 < sdt) (ha : 0 < a) :
    ∀ k, animSeqVal m0 id t0 d sdt pdt a k = F.finite (wSeq v0 (min d sdt / a) (k + 1)) := by
  have hane : ¬ a = 0 := ne_of_gt ha
  have he : 0 ≤ min d sdt / a :=
    div_nonneg (le_of_lt (lt_min hd hs)) (le_of_lt ha)
  intro k
  have hinv := animSeq_state_invariant m0 id t0 d sdt pdt a v0 h0 hv0 hv1 hd hs ha k
  have hstep := (animate_bool_finite_step (animSeqStates m0 id t0 d sdt pdt a k) id
    (F.finite pdt) (wSeq v0 (min d sdt / a) k) (t0 + (k : ℚ) * d)
    (t0 + ((k : ℚ) + 1) * d) sdt a hinv hane).1
  have harith : (t0 + ((k : ℚ) + 1) * d) - (t0 + (k : ℚ) * d) = d := by ring
  rw [harith] at hstep
  have hmax : max (wSeq v0 (min d sdt / a) k + min d sdt / a) 0
      = wSeq v0 (min d sdt / a) k + min d sdt / a :=
    max_eq_left (add_nonneg (wSeq_nonneg v0 _ hv0 he k) he)
  rw [hmax] at hstep
  rw [animSeqVal, show animStepInput t0 d sdt pdt k =
    ⟨F.finite (t0 + ((k : ℚ) + 1) * d), F.finite sdt, F.finite pdt⟩ from rfl]
  rw [hstep, wSeq]

/-- C6: the first `animate_bool` query returns exactly the target end
value (1 for true, 0 for false) with no animation, and subsequent
`animate_bool(id, true)` calls with a fixed positive time step and a
positive animation time return a non-decreasing sequence of values in
`[0, 1]` that reaches 1 after finitely many steps and stays there. -/
theorem C6_animate_bool_monotone_convergence :
    (∀ (m : AnimationManager) (input : InputState) (animation_time : F) (id : Nat)
      (value : Bool), m.bools id = none →
      (m.animate_bool input animation_time id value).1 =
        (if value then F.finite 1 else F.finite 0) ∧
      (m.animate_bool input animation_time id value).2.bools id =
        some ⟨if value then F.finite 1 else F.finite 0, F.sub input.time input.stable_dt⟩) ∧
    (∀ (m0 : AnimationManager) (id : Nat) (t0 d sdt pdt a v0 : ℚ),
      m0.bools id = some ⟨F.finite v0, F.finite t0⟩ →
      0 ≤ v0 → v0 ≤ 1 → 0 < d → 0 < sdt → 0 < a →
      (∀ k, ∃ q1 q2 : ℚ,
        animSeqVal m0 id t0 d sdt pdt a k = F.finite q1 ∧
        animSeqVal m0 id t0 d sdt pdt a (k + 1) = F.finite q2 ∧
        q1 ≤ q2 ∧ 0 ≤ q1 ∧ q1 ≤ 1) ∧
      (∃ n, ∀ k, n ≤ k → animSeqVal m0 id t0 d sdt pdt a k = F.finite 1)) := by
  constructor
  · intro m input animation_time id value h
    rcases value with _ | _
    · rw [AnimationManager.animate_bool]
      simp [h]
    · rw [AnimationManager.animate_bool]
      simp [h]
  · intro m0 id t0 d sdt pdt a v0 h0 hv0 hv1 hd hs ha
    have he : 0 ≤ min d sdt / a :=
      div_nonneg (le_of_lt (lt_min hd hs)) (le_of_lt ha)
    have hval := animSeqVal_eq m0 id t0 d sdt pdt a v0 h0 hv0 hv1 hd hs ha
    constructor
    · intro k
      refine ⟨wSeq v0 (min d sdt / a) (k + 1), wSeq v0 (min d sdt / a) (k + 2),
        hval k, hval (k + 1), ?_, ?_, ?_⟩
      · exact wSeq_mono v0 _ hv1 he (k + 1)
      · exact wSeq_nonneg v0 _ hv0 he (k + 1)
      · exact wSeq_le_one v0 _ hv1 (k + 1)
    · have hepos : 0 < min d sdt / a := div_pos (lt_min hd hs) ha
      obtain ⟨n, hn⟩ := wSeq_eventually_one v0 (min d sdt / a) hv1 hepos
      refine ⟨n, ?_⟩
      intro k hk
      rw [hval k]
      rw [hn (k + 1) (Nat.le_succ_of_le hk)]

/-- Witness for C6: a first query for an unknown identifier returns 1
immediately. -/
theorem C6_witness :
    (AnimationManager.empty.animate_bool ⟨F.finite 5, F.finite 1, F.finite 0⟩
      (F.finite 2) 3 true).1 = F.finite 1 := by
  have h := (C6_animate_bool_monotone_convergence.1 AnimationManager.empty
    ⟨F.finite 5, F.finite 1, F.finite 0⟩ (F.finite 2) 3 true rfl).1
  simpa using h

/-! ## Claim C4: the focus dead-man's switch -/

/-- C4: at `Focus::end_pass` (in a pass without cardinal arrow
navigation), a focused identifier that was already focused at the start of
the pass and is not among this pass's used identifiers loses focus;
otherwise — used, or focus gained this same pass — it keeps focus.  In
particular, after `request_focus` in one pass and no registration from
then on, focus is gone by the pass after next, whatever the rest of the
state. -/
theorem C4_focus_dead_mans_switch :
    (∀ (find_result : Option Nat) (f : Focus) (used : List (Nat × Rect)) (w : FocusWidget),
      f.focus_direction.is_cardinal = false →
      f.focused_widget = some w →
      ((f.id_previous_frame = some w.id ∧ usedContains used w.id = false →
        (Focus.end_pass find_result f used).focused_widget = none) ∧
       ((f.id_previous_frame ≠ some w.id ∨ usedContains used w.id = true) →
        (Focus.end_pass find_result f used).focused_widget = some w))) ∧
    (∀ (f0 : Focus) (id : Nat) (find1 find2 : Option Nat) (usedN usedN1 : List (Nat × Rect)),
      usedContains usedN1 id = false →
      (Focus.end_pass find2
        (Focus.begin_pass_no_events
          (Focus.end_pass find1
            (Focus.request_focus (Focus.begin_pass_no_events f0) id) usedN)) usedN1).has_focus id
        = false ∧
      (Focus.end_pass find2
        (Focus.begin_pass_no_events
          (Focus.end_pass find1
            (Focus.request_focus (Focus.begin_pass_no_events f0) id) usedN)) usedN1).focused
        = none) := by
  constructor
  · intro find_result f used w hcard hfoc
    rw [Focus.end_pass.eq_def, hcard]
    constructor
    · intro ⟨hprev, hused⟩
      simp only [Bool.false_eq_true, if_false, hfoc, hprev, if_pos rfl, hused]
      rfl
    · intro hor
      rcases hor with hprev | hused
      · simp only [Bool.false_eq_true, if_false, hfoc, if_neg hprev]
      · by_cases hprev : f.id_previous_frame = some w.id
        · simp only [Bool.false_eq_true, if_false, hfoc, hprev, if_pos rfl, hused, if_true]
        · simp only [Bool.false_eq_true, if_false, hfoc, if_neg hprev]
  · intro f0 id find1 find2 usedN usedN1 hused
    have hmid :
        (Focus.end_pass find1 (Focus.request_focus (Focus.begin_pass_no_events f0) id)
          usedN).focused_widget = some ⟨id⟩ ∨
        (Focus.end_pass find1 (Focus.request_focus (Focus.begin_pass_no_events f0) id)
          usedN).focused_widget = none := by
      rw [Focus.end_pass.eq_def]
      simp only [Focus.request_focus, Focus.begin_pass_no_events]
      by_cases hprev : f0.focused = some id
      · by_cases hu : usedContains usedN id = true
        · simp [FocusDirection.is_cardinal, hprev, hu]
        · simp [FocusDirection.is_cardinal, hprev, hu]
      · simp [FocusDirection.is_cardinal, hprev]
    rcases hmid with hmid | hmid
    · have hafter :
          (Focus.begin_pass_no_events
            (Focus.end_pass find1 (Focus.request_focus (Focus.begin_pass_no_events f0) id)
              usedN)).focused_widget = some ⟨id⟩ ∧
          (Focus.begin_pass_no_events
            (Focus.end_pass find1 (Focus.request_focus (Focus.begin_pass_no_events f0) id)
              usedN)).id_previous_frame = some id ∧
          (Focus.begin_pass_no_events
            (Focus.end_pass find1 (Focus.request_focus (Focus.begin_pass_no_events f0) id)
              usedN)).focus_direction = FocusDirection.None := by
        rw [Focus.begin_pass_no_events]
        have hnext :
            (Focus.end_pass find1 (Focus.request_focus (Focus.begin_pass_no_events f0) id)
              usedN).id_next_frame = none := by
          rw [Focus.end_pass.eq_def]
          simp [Focus.request_focus, Focus.begin_pass_no_events, FocusDirection.is_cardinal]
          split_ifs <;> rfl
        simp [hnext, hmid, Focus.focused]
      rw [Focus.end_pass.eq_def, hafter.2.2]
      simp only [FocusDirection.is_cardinal, Bool.false_eq_true, if_false, hafter.1,
        hafter.2.1, if_pos rfl, hused]
      constructor
      · simp [Focus.has_focus, Focus.focused]
      · simp [Focus.focused]
    · have hafter :
          (Focus.begin_pass_no_events
            (Focus.end_pass find1 (Focus.request_focus (Focus.begin_pass_no_events f0) id)
              usedN)).focused_widget = none ∧
          (Focus.begin_pass_no_events
            (Focus.end_pass find1 (Focus.request_focus (Focus.begin_pass_no_events f0) id)
              usedN)).focus_direction = FocusDirection.None := by
        rw [Focus.begin_pass_no_events]
        have hnext :
            (Focus.end_pass find1 (Focus.request_focus (Focus.begin_pass_no_events f0) id)
              usedN).id_next_frame = none := by
          rw [Focus.end_pass.eq_def]
          simp [Focus.request_focus, Focus.begin_pass_no_events, FocusDirection.is_cardinal]
          split_ifs <;> rfl
        simp [hnext, hmid]
      rw [Focus.end_pass.eq_def, hafter.2]
      simp only [FocusDirection.is_cardinal, Bool.false_eq_true, if_false, hafter.1]
      constructor
      · simp [Focus.has_focus, Focus.focused]
      · simp [Focus.focused]

/-- Witness for C4: a concrete widget that requests focus and is never
used again has no focus two passes later. -/
theorem C4_witness :
    usedContains [] 7 = false ∧
    (Focus.end_pass none
      (Focus.begin_pass_no_events
        (Focus.end_pass none
          (Focus.request_focus
            (Focus.begin_pass_no_events
              ⟨none, none, none, false, none, FocusDirection.None, none, none⟩) 7) []))
      []).has_focus 7 = false := by
  refine ⟨by decide, ?_⟩
  exact (C4_focus_dead_mans_switch.2
    ⟨none, none, none, false, none, FocusDirection.None, none, none⟩ 7 none none [] []
    (by decide)).1

/-! ## Claim C5: two-pass visibility hysteresis -/

/-- Applying a concatenation of operation lists is sequential application. -/
theorem applyAOps_append (s : Areas) (xs ys : List AOp) :
    applyAOps s (xs ++ ys) = applyAOps (applyAOps s xs) ys := by
  induction xs generalizing s with
  | nil => rfl
  | cons op ops ih => simp [applyAOps, ih]

/-- Inserting into the set model puts the element in. -/
theorem mem_slinsert_self (ls : List LayerId) (x : LayerId) : x ∈ slinsert ls x := by
  rw [slinsert]
  split_ifs with h
  · exact h
  · exact List.mem_cons_self x ls

/-- Inserting into the set model keeps old elements. -/
theorem mem_slinsert_of_mem (ls : List LayerId) (x y : LayerId) (h : y ∈ ls) :
    y ∈ slinsert ls x := by
  rw [slinsert]
  split_ifs
  · exact h
  · exact List.mem_cons_of_mem x h

/-- Inserting a different element does not put a missing element in. -/
theorem not_mem_slinsert (ls : List LayerId) (x y : LayerId) (hxy : y ≠ x) (h : y ∉ ls) :
    y ∉ slinsert ls x := by
  rw [slinsert]
  split_ifs
  · exact h
  · intro hmem
    rcases List.mem_cons.mp hmem with h1 | h1
    · exact hxy h1
    · exact h h1

/-- The tail of a no-reregistration sequence is one as well. -/
theorem NoRereg.tail (op : AOp) (rest : List AOp) (l : LayerId)
    (hr : NoRereg (op :: rest) l) : NoRereg rest l := by
  constructor
  · intro st hmem
    exact hr.1 st (List.mem_cons_of_mem op hmem)
  · intro hmem
    exact hr.2 (List.mem_cons_of_mem op hmem)

/-- Operations without an end-of-pass leave the previous-pass visibility
set untouched. -/
theorem visible_last_noend (ops : List AOp) (h : AOp.end_pass ∉ ops) :
    ∀ s : Areas, (applyAOps s ops).visible_areas_last_frame = s.visible_areas_last_frame := by
  induction ops with
  | nil => intro s; rfl
  | cons op rest ih =>
      intro s
      have hop : op ≠ AOp.end_pass := fun he => h (he ▸ List.mem_cons_self op rest)
      have hrest : AOp.end_pass ∉ rest := fun hmem => h (List.mem_cons_of_mem op hmem)
      have hstep : applyAOps s (op :: rest) = applyAOps (applyAOp s op) rest := rfl
      rw [hstep, ih hrest]
      cases op with
      | set_state l st => rfl
      | move_to_top l => rfl
      | end_pass => exact absurd rfl hop

/-- Operations without an end-of-pass preserve membership in the
current-pass visibility set. -/
theorem visible_current_mem_noend (ops : List AOp) (h : AOp.end_pass ∉ ops) (l : LayerId) :
    ∀ s : Areas, l ∈ s.visible_areas_current_frame →
      l ∈ (applyAOps s ops).visible_areas_current_frame := by
  induction ops with
  | nil => intro s hs; exact hs
  | cons op rest ih =>
      intro s hs
      have hop : op ≠ AOp.end_pass := fun he => h (he ▸ List.mem_cons_self op rest)
      have hrest : AOp.end_pass ∉ rest := fun hmem => h (List.mem_cons_of_mem op hmem)
      have hstep : applyAOps s (op :: rest) = applyAOps (applyAOp s op) rest := rfl
      rw [hstep]
      refine ih hrest (applyAOp s op) ?_
      cases op with
      | set_state l2 st => exact mem_slinsert_of_mem _ l2 l hs
      | move_to_top l2 => exact mem_slinsert_of_mem _ l2 l hs
      | end_pass => exact absurd rfl hop

/-- Operations that never register the layer and contain no end-of-pass
cannot put it into the current-pass visibility set. -/
theorem visible_current_notmem (ops : List AOp) (h : AOp.end_pass ∉ ops) (l : LayerId)
    (hr : NoRereg ops l) :
    ∀ s : Areas, l ∉ s.visible_areas_current_frame →
      l ∉ (applyAOps s ops).visible_areas_current_frame := by
  induction ops with
  | nil => intro s hs; exact hs
  | cons op rest ih =>
      intro s hs
      have hop : op ≠ AOp.end_pass := fun he => h (he ▸ List.mem_cons_self op rest)
      have hrest : AOp.end_pass ∉ rest := fun hmem => h (List.mem_cons_of_mem op hmem)
      have hstep : applyAOps s (op :: rest) = applyAOps (applyAOp s op) rest := rfl
      rw [hstep]
      refine ih hrest (NoRereg.tail op rest l hr) (applyAOp s op) ?_
      cases op with
      | set_state l2 st =>
          have hne : l ≠ l2 := by
            intro he
            exact hr.1 st (by rw [he]; exact List.mem_cons_self _ _)
          exact not_mem_slinsert _ l2 l hne hs
      | move_to_top l2 =>
          have hne : l ≠ l2 := by
            intro he
            exact hr.2 (by rw [he]; exact List.mem_cons_self _ _)
          exact not_mem_slinsert _ l2 l hne hs
      | end_pass => exact absurd rfl hop

/-- C5: a layer registered with `set_state` during pass N and never
re-registered afterwards is visible during pass N and during pass N+1
(after one `end_pass`), and no longer visible during pass N+2 (after two
`end_pass` calls). -/
theorem C5_visibility_hysteresis (pre ops1 ops2 ops3 : List AOp) (l : LayerId) (st : AreaState)
    (h1 : AOp.end_pass ∉ ops1) (h2 : AOp.end_pass ∉ ops2) (h3 : AOp.end_pass ∉ ops3)
    (hr2 : NoRereg ops2 l) (hr3 : NoRereg ops3 l) :
    (applyAOps Areas.init (pre ++ AOp.set_state l st :: ops1)).is_visible l = true ∧
    (applyAOps Areas.init
      ((pre ++ AOp.set_state l st :: ops1) ++ AOp.end_pass :: ops2)).is_visible l = true ∧
    (applyAOps Areas.init
      (((pre ++ AOp.set_state l st :: ops1) ++ AOp.end_pass :: ops2) ++ AOp.end_pass :: ops3)).is_visible
      l = false := by
  have hreg : l ∈ ((applyAOps Areas.init pre).set_state l st).visible_areas_current_frame :=
    mem_slinsert_self _ l
  have hA : applyAOps Areas.init (pre ++ AOp.set_state l st :: ops1) =
      applyAOps ((applyAOps Areas.init pre).set_state l st) ops1 := by
    rw [applyAOps_append]
    rfl
  have hcurA : l ∈ (applyAOps Areas.init
      (pre ++ AOp.set_state l st :: ops1)).visible_areas_current_frame := by
    rw [hA]
    exact visible_current_mem_noend ops1 h1 l _ hreg
  refine ⟨?_, ?_, ?_⟩
  · simp [Areas.is_visible, hcurA]
  · rw [applyAOps_append]
    have hstep : applyAOps (applyAOps Areas.init (pre ++ AOp.set_state l st :: ops1))
        (AOp.end_pass :: ops2) =
      applyAOps (applyAOps Areas.init (pre ++ AOp.set_state l st :: ops1)).end_pass ops2 := rfl
    rw [hstep]
    have hlast : l ∈ (applyAOps
        (applyAOps Areas.init (pre ++ AOp.set_state l st :: ops1)).end_pass
        ops2).visible_areas_last_frame := by
      rw [visible_last_noend ops2 h2]
      exact hcurA
    simp [Areas.is_visible, hlast]
  · rw [applyAOps_append]
    have hstep : applyAOps (applyAOps Areas.init
        ((pre ++ AOp.set_state l st :: ops1) ++ AOp.end_pass :: ops2)) (AOp.end_pass :: ops3) =
      applyAOps (applyAOps Areas.init
        ((pre ++ AOp.set_state l st :: ops1) ++ AOp.end_pass :: ops2)).end_pass ops3 := rfl
    rw [hstep]
    have hcurB : l ∉ (applyAOps Areas.init
        ((pre ++ AOp.set_state l st :: ops1) ++ AOp.end_pass :: ops2)).visible_areas_current_frame := by
      rw [applyAOps_append]
      have hstep2 : applyAOps (applyAOps Areas.init (pre ++ AOp.set_state l st :: ops1))
          (AOp.end_pass :: ops2) =
        applyAOps (applyAOps Areas.init (pre ++ AOp.set_state l st :: ops1)).end_pass ops2 := rfl
      rw [hstep2]
      refine visible_current_notmem ops2 h2 l hr2 _ ?_
      simp [Areas.end_pass]
    have hlastC : l ∉ (applyAOps (applyAOps Areas.init
        ((pre ++ AOp.set_state l st :: ops1) ++ AOp.end_pass :: ops2)).end_pass
        ops3).visible_areas_last_frame := by
      rw [visible_last_noend ops3 h3]
      exact hcurB
    have hcurC : l ∉ (applyAOps (applyAOps Areas.init
        ((pre ++ AOp.set_state l st :: ops1) ++ AOp.end_pass :: ops2)).end_pass
        ops3).visible_areas_current_frame := by
      refine visible_current_notmem ops3 h3 l hr3 _ ?_
      simp [Areas.end_pass]
    simp only [Areas.is_visible, Bool.or_eq_false_iff, decide_eq_false_iff_not]
    exact ⟨by simpa using hlastC, by simpa using hcurC⟩

/-- Witness for C5: the minimal three-pass trace for one layer. -/
theorem C5_witness :
    (applyAOps Areas.init [AOp.set_state ⟨Order.Middle, 5⟩ ⟨true⟩]).is_visible
      ⟨Order.Middle, 5⟩ = true ∧
    (applyAOps Areas.init
      [AOp.set_state ⟨Order.Middle, 5⟩ ⟨true⟩, AOp.end_pass]).is_visible
      ⟨Order.Middle, 5⟩ = true ∧
    (applyAOps Areas.init
      [AOp.set_state ⟨Order.Middle, 5⟩ ⟨true⟩, AOp.end_pass, AOp.end_pass]).is_visible
      ⟨Order.Middle, 5⟩ = false := by
  have h := C5_visibility_hysteresis [] [] [] [] ⟨Order.Middle, 5⟩ ⟨true⟩
    (by simp) (by simp) (by simp)
    ⟨fun st h => by simp at h, by simp⟩ ⟨fun st h => by simp at h, by simp⟩
  simpa using h

/-! ## Claim C1: compare_order is a strict total order -/

/-- Characterization of `natCmp` at `lt`. -/
theorem natCmp_eq_lt (m n : Nat) : natCmp m n = Ordering.lt ↔ m < n := by
  rw [natCmp]
  split_ifs with h1 h2
  · simp [h1]
  · simp
    omega
  · simp
    omega

/-- Characterization of `natCmp` at `eq`. -/
theorem natCmp_eq_eq (m n : Nat) : natCmp m n = Ordering.eq ↔ m = n := by
  rw [natCmp]
  split_ifs with h1 h2
  · simp
    omega
  · simp
    omega
  · simp
    omega

/-- Characterization of `natCmp` at `gt`. -/
theorem natCmp_eq_gt (m n : Nat) : natCmp m n = Ordering.gt ↔ n < m := by
  rw [natCmp]
  split_ifs with h1 h2
  · simp
    omega
  · simp [h2]
  · simp
    omega

/-- Swapping the arguments of `natCmp` reverses the answer. -/
theorem natCmp_swap (m n : Nat) : natCmp m n = (natCmp n m).swap := by
  rcases lt_trichotomy m n with h | h | h
  · have h2 : ¬ n < m := by omega
    simp [natCmp, h, h2, Ordering.swap]
  · have h2 : ¬ m < n := by omega
    have h3 : ¬ n < m := by omega
    simp [natCmp, h2, h3, Ordering.swap]
  · have h2 : ¬ m < n := by omega
    simp [natCmp, h, h2, Ordering.swap]

/-- Swapping the arguments of `cmpOptNat` reverses the answer. -/
theorem cmpOptNat_swap (o1 o2 : Option Nat) : cmpOptNat o1 o2 = (cmpOptNat o2 o1).swap := by
  cases o1 with
  | none => cases o2 <;> simp [cmpOptNat, Ordering.swap]
  | some i =>
      cases o2 with
      | none => simp [cmpOptNat, Ordering.swap]
      | some j => simpa [cmpOptNat] using natCmp_swap i j

/-- `cmpOptNat` is transitive at `lt`. -/
theorem cmpOptNat_lt_trans (o1 o2 o3 : Option Nat)
    (h1 : cmpOptNat o1 o2 = Ordering.lt) (h2 : cmpOptNat o2 o3 = Ordering.lt) :
    cmpOptNat o1 o3 = Ordering.lt := by
  cases o1 <;> cases o2 <;> cases o3 <;>
    simp_all [cmpOptNat, natCmp_eq_lt] <;> omega

/-- `cmpOptNat` answers `eq` exactly on equal arguments. -/
theorem cmpOptNat_eq_eq (o1 o2 : Option Nat) : cmpOptNat o1 o2 = Ordering.eq ↔ o1 = o2 := by
  cases o1 <;> cases o2 <;> simp [cmpOptNat, natCmp_eq_eq]

/-- Characterization of `compare_order` at `lt`: smaller order class, or
equal classes and a smaller order-map entry. -/
theorem compare_order_eq_lt (s : Areas) (a b : LayerId) :
    s.compare_order a b = Ordering.lt ↔
      (a.order.toNat < b.order.toNat ∨
        (a.order.toNat = b.order.toNat ∧
          cmpOptNat (s.order_map a) (s.order_map b) = Ordering.lt)) := by
  rw [Areas.compare_order, Order.cmp]
  rcases h : natCmp a.order.toNat b.order.toNat with _ | _ | _
  · have hlt := (natCmp_eq_lt _ _).mp h
    simp [h, hlt]
  · have heq := (natCmp_eq_eq _ _).mp h
    simp [h, heq]
  · have hgt := (natCmp_eq_gt _ _).mp h
    simp only [h]
    constructor
    · intro hh
      exact absurd hh (by decide)
    · intro hh
      rcases hh with h1 | ⟨h1, _⟩ <;> omega

/-- Characterization of `compare_order` at `eq`: equal order classes and
equal order-map entries. -/
theorem compare_order_eq_eq (s : Areas) (a b : LayerId) :
    s.compare_order a b = Ordering.eq ↔
      (a.order.toNat = b.order.toNat ∧ s.order_map a = s.order_map b) := by
  rw [Areas.compare_order, Order.cmp]
  rcases h : natCmp a.order.toNat b.order.toNat with _ | _ | _
  · have hlt := (natCmp_eq_lt _ _).mp h
    simp only [h]
    constructor
    · intro hh
      exact absurd hh (by decide)
    · intro hh
      omega
  · have heq := (natCmp_eq_eq _ _).mp h
    simp [h, heq, cmpOptNat_eq_eq]
  · have hgt := (natCmp_eq_gt _ _).mp h
    simp only [h]
    constructor
    · intro hh
      exact absurd hh (by decide)
    · intro hh
      omega

/-- Swapping the arguments of `compare_order` reverses the answer. -/
theorem compare_order_swap (s : Areas) (a b : LayerId) :
    s.compare_order a b = (s.compare_order b a).swap := by
  rw [Areas.compare_order, Areas.compare_order, Order.cmp, Order.cmp]
  have h2 := natCmp_swap b.order.toNat a.order.toNat
  rcases h : natCmp a.order.toNat b.order.toNat with _ | _ | _ <;>
    rw [h] at h2 <;> simp only [Ordering.swap] at h2 <;>
    simp [h, h2, Ordering.swap, cmpOptNat_swap (s.order_map a) (s.order_map b)]

/-- `compare_order` is transitive at `lt`. -/
theorem compare_order_lt_trans (s : Areas) (x y z : LayerId)
    (h1 : s.compare_order x y = Ordering.lt) (h2 : s.compare_order y z = Ordering.lt) :
    s.compare_order x z = Ordering.lt := by
  rw [compare_order_eq_lt] at h1 h2 ⊢
  rcases h1 with h1 | ⟨h1e, h1m⟩ <;> rcases h2 with h2 | ⟨h2e, h2m⟩
  · exact Or.inl (by omega)
  · exact Or.inl (by omega)
  · exact Or.inl (by omega)
  · exact Or.inr ⟨by omega, cmpOptNat_lt_trans _ _ _ h1m h2m⟩

/-- An index returned by `orderMapGo` points at the looked-up layer. -/
theorem orderMapGo_some (l : List LayerId) :
    ∀ i x j, orderMapGo l i x = some j → i ≤ j ∧ l.get? (j - i) = some x := by
  induction l with
  | nil =>
      intro i x j h
      exact absurd h (by simp [orderMapGo])
  | cons y ys ih =>
      intro i x j h
      rw [orderMapGo] at h
      rcases hgo : orderMapGo ys (i + 1) x with _ | j2
      · rw [hgo] at h
        split_ifs at h with hyx
        · have hj : i = j := Option.some_inj.mp h
          subst hj
          refine ⟨le_refl i, ?_⟩
          simp [hyx]
      · rw [hgo] at h
        have hj : j2 = j := Option.some_inj.mp h
        subst hj
        obtain ⟨hle, hget⟩ := ih (i + 1) x j2 hgo
        refine ⟨by omega, ?_⟩
        have hidx : j2 - i = (j2 - (i + 1)) + 1 := by omega
        rw [hidx]
        simpa using hget

/-- A layer present in the list gets an index from `orderMapGo`. -/
theorem orderMapGo_mem (l : List LayerId) (x : LayerId) :
    ∀ i, x ∈ l → ∃ j, orderMapGo l i x = some j := by
  induction l with
  | nil => intro i h; cases h
  | cons y ys ih =>
      intro i h
      rw [orderMapGo]
      rcases hgo : orderMapGo ys (i + 1) x with _ | j2
      · rcases List.mem_cons.mp h with h1 | h1
        · exact ⟨i, by simp [h1.symm]⟩
        · obtain ⟨j, hj⟩ := ih (i + 1) h1
          rw [hj] at hgo
          cases hgo
      · exact ⟨j2, by simp⟩

/-- The order map built from a list points each mapped layer back at its
own position in the list. -/
theorem buildOrderMap_get (o : List LayerId) (x : LayerId) (j : Nat)
    (h : buildOrderMap o x = some j) : o.get? j = some x := by
  obtain ⟨_, hget⟩ := orderMapGo_some o 0 x j h
  simpa using hget

/-- Every member of the list is in the domain of the built order map. -/
theorem buildOrderMap_isSome (o : List LayerId) (x : LayerId) (hx : x ∈ o) :
    ∃ j, buildOrderMap o x = some j :=
  orderMapGo_mem o x 0 hx

/-- The operations of the claims never create sublayers. -/
theorem sublayers_applyAOp (s : Areas) (op : AOp) (hs : s.sublayers = []) :
    (applyAOp s op).sublayers = [] := by
  cases op with
  | set_state l st => exact hs
  | move_to_top l => exact hs
  | end_pass => rfl

/-- The operations of the claims never create sublayers (sequences). -/
theorem sublayers_applyAOps (ops : List AOp) :
    ∀ s : Areas, s.sublayers = [] → (applyAOps s ops).sublayers = [] := by
  induction ops with
  | nil => intro s hs; exact hs
  | cons op rest ih => intro s hs; exact ih (applyAOp s op) (sublayers_applyAOp s op hs)

/-- Membership in the order list survives every operation (the sublayer
splice is the identity while no sublayers exist). -/
theorem order_mem_applyAOp (s : Areas) (op : AOp) (l : LayerId) (hs : s.sublayers = [])
    (h : l ∈ s.order) : l ∈ (applyAOp s op).order := by
  cases op with
  | set_state l2 st =>
      show l ∈ (s.set_state l2 st).order
      rw [Areas.set_state]
      split_ifs with hmem
      · exact h
      · exact List.mem_append_left _ h
  | move_to_top l2 =>
      show l ∈ (s.move_to_top l2).order
      rw [Areas.move_to_top]
      split_ifs with hmem
      · exact h
      · exact List.mem_append_left _ h
  | end_pass =>
      show l ∈ s.end_pass.order
      rw [Areas.end_pass, hs]
      exact List.mem_mergeSort.mpr h

/-- Membership in the order list survives every operation sequence. -/
theorem order_mem_applyAOps (ops : List AOp) (l : LayerId) :
    ∀ s : Areas, s.sublayers = [] → l ∈ s.order → l ∈ (applyAOps s ops).order := by
  induction ops with
  | nil => intro s _ h; exact h
  | cons op rest ih =>
      intro s hs h
      exact ih (applyAOp s op) (sublayers_applyAOp s op hs) (order_mem_applyAOp s op l hs h)

/-- A registered layer ends up in the order list. -/
theorem registers_mem_order (ops : List AOp) (l : LayerId) :
    ∀ s : Areas, s.sublayers = [] → RegistersLayer ops l → l ∈ (applyAOps s ops).order := by
  induction ops with
  | nil =>
      intro s _ hr
      rcases hr with ⟨st, h⟩ | h <;> simp at h
  | cons op rest ih =>
      intro s hs hr
      by_cases hreg : RegistersLayer rest l
      · exact ih (applyAOp s op) (sublayers_applyAOp s op hs) hreg
      · have hhead : (∃ st, op = AOp.set_state l st) ∨ op = AOp.move_to_top l := by
          rcases hr with ⟨st, h⟩ | h
          · rcases List.mem_cons.mp h with h1 | h1
            · exact Or.inl ⟨st, h1.symm⟩
            · exact absurd (Or.inl ⟨st, h1⟩) hreg
          · rcases List.mem_cons.mp h with h1 | h1
            · exact Or.inr h1.symm
            · exact absurd (Or.inr h1) hreg
        have hmem : l ∈ (applyAOp s op).order := by
          rcases hhead with ⟨st, rfl⟩ | rfl
          · show l ∈ (s.set_state l st).order
            rw [Areas.set_state]
            split_ifs with hin
            · exact hin
            · exact List.mem_append_right _ (List.mem_singleton.mpr rfl)
          · show l ∈ (s.move_to_top l).order
            rw [Areas.move_to_top]
            split_ifs with hin
            · exact hin
            · exact List.mem_append_right _ (List.mem_singleton.mpr rfl)
        exact order_mem_applyAOps rest l (applyAOp s op) (sublayers_applyAOp s op hs) hmem

/-- After an end-of-pass, the order map is the map built from the sorted
order list, and the claims' later operations either keep it or rebuild it
from a list that still contains every previously registered layer. -/
theorem order_map_built (ops2 : List AOp) (a b : LayerId) :
    ∀ s : Areas, s.sublayers = [] →
      (∃ o : List LayerId, a ∈ o ∧ b ∈ o ∧ s.order_map = buildOrderMap o) →
      a ∈ s.order → b ∈ s.order →
      ∃ o : List LayerId, a ∈ o ∧ b ∈ o ∧ (applyAOps s ops2).order_map = buildOrderMap o := by
  induction ops2 with
  | nil => intro s _ h _ _; exact h
  | cons op rest ih =>
      intro s hs hmap ha hb
      refine ih (applyAOp s op) (sublayers_applyAOp s op hs) ?_
        (order_mem_applyAOp s op a hs ha) (order_mem_applyAOp s op b hs hb)
      cases op with
      | set_state l2 st => exact hmap
      | move_to_top l2 => exact hmap
      | end_pass =>
          refine ⟨s.order.mergeSort (layerSortLE s.wants_to_be_on_top),
            List.mem_mergeSort.mpr ha, List.mem_mergeSort.mpr hb, ?_⟩
          show s.end_pass.order_map = _
          rw [Areas.end_pass, hs]
          rfl

/-- C1: for layers registered (via `set_state` or `move_to_top`) in a
prior pass followed by an end-of-pass, `compare_order` is a strict total
order: antisymmetric (the answer for the swapped pair is the reverse),
transitive, `Equal` exactly on a layer compared with itself, and `Less`
whenever the first order class is smaller. -/
theorem C1_compare_order_strict_total_order (ops1 ops2 : List AOp) (a b : LayerId)
    (ha : RegistersLayer ops1 a) (hb : RegistersLayer ops1 b) :
    (applyAOps Areas.init (ops1 ++ AOp.end_pass :: ops2)).compare_order a b =
      ((applyAOps Areas.init (ops1 ++ AOp.end_pass :: ops2)).compare_order b a).swap ∧
    (∀ x y z : LayerId,
      (applyAOps Areas.init (ops1 ++ AOp.end_pass :: ops2)).compare_order x y = Ordering.lt →
      (applyAOps Areas.init (ops1 ++ AOp.end_pass :: ops2)).compare_order y z = Ordering.lt →
      (applyAOps Areas.init (ops1 ++ AOp.end_pass :: ops2)).compare_order x z = Ordering.lt) ∧
    ((applyAOps Areas.init (ops1 ++ AOp.end_pass :: ops2)).compare_order a b = Ordering.eq ↔
      a = b) ∧
    (a.order.toNat < b.order.toNat →
      (applyAOps Areas.init (ops1 ++ AOp.end_pass :: ops2)).compare_order a b =
        Ordering.lt) := by
  have hsplit : applyAOps Areas.init (ops1 ++ AOp.end_pass :: ops2) =
      applyAOps (applyAOps Areas.init ops1).end_pass ops2 := by
    rw [applyAOps_append]
    rfl
  have hsub1 : (applyAOps Areas.init ops1).sublayers = [] :=
    sublayers_applyAOps ops1 Areas.init rfl
  have hmemA : a ∈ (applyAOps Areas.init ops1).order :=
    registers_mem_order ops1 a Areas.init rfl ha
  have hmemB : b ∈ (applyAOps Areas.init ops1).order :=
    registers_mem_order ops1 b Areas.init rfl hb
  have hsub2 : (applyAOps Areas.init ops1).end_pass.sublayers = [] := rfl
  have hordA : a ∈ (applyAOps Areas.init ops1).end_pass.order :=
    order_mem_applyAOp (applyAOps Areas.init ops1) AOp.end_pass a hsub1 hmemA
  have hordB : b ∈ (applyAOps Areas.init ops1).end_pass.order :=
    order_mem_applyAOp (applyAOps Areas.init ops1) AOp.end_pass b hsub1 hmemB
  have hbase : ∃ o : List LayerId, a ∈ o ∧ b ∈ o ∧
      (applyAOps Areas.init ops1).end_pass.order_map = buildOrderMap o := by
    refine ⟨(applyAOps Areas.init ops1).order.mergeSort
        (layerSortLE (applyAOps Areas.init ops1).wants_to_be_on_top),
      List.mem_mergeSort.mpr hmemA, List.mem_mergeSort.mpr hmemB, ?_⟩
    rw [Areas.end_pass, hsub1]
    rfl
  obtain ⟨o, hoA, hoB, hmap⟩ :=
    order_map_built ops2 a b (applyAOps Areas.init ops1).end_pass hsub2 hbase hordA hordB
  obtain ⟨ja, hja⟩ := buildOrderMap_isSome o a hoA
  obtain ⟨jb, hjb⟩ := buildOrderMap_isSome o b hoB
  rw [hsplit]
  refine ⟨compare_order_swap _ a b, fun x y z => compare_order_lt_trans _ x y z, ?_, ?_⟩
  · rw [compare_order_eq_eq]
    constructor
    · intro hh
      have h2 := hh.2
      rw [hmap, hja, hjb] at h2
      have hjab : ja = jb := Option.some_inj.mp h2
      subst hjab
      have hga := buildOrderMap_get o a ja hja
      have hgb := buildOrderMap_get o b ja hjb
      rw [hga] at hgb
      exact Option.some_inj.mp hgb
    · intro h
      subst h
      exact ⟨rfl, rfl⟩
  · intro h
    rw [compare_order_eq_lt]
    exact Or.inl h

/-- Witness for C1: two registered layers of different order classes
compare `Less`, and a registered layer compares `Equal` with itself. -/
theorem C1_witness :
    (applyAOps Areas.init
      ([AOp.set_state ⟨Order.Background, 0⟩ ⟨true⟩, AOp.set_state ⟨Order.Tooltip, 1⟩ ⟨true⟩] ++
        AOp.end_pass :: [])).compare_order ⟨Order.Background, 0⟩ ⟨Order.Tooltip, 1⟩ =
      Ordering.lt ∧
    (applyAOps Areas.init
      ([AOp.set_state ⟨Order.Background, 0⟩ ⟨true⟩, AOp.set_state ⟨Order.Tooltip, 1⟩ ⟨true⟩] ++
        AOp.end_pass :: [])).compare_order ⟨Order.Background, 0⟩ ⟨Order.Background, 0⟩ =
      Ordering.eq := by
  have h := C1_compare_order_strict_total_order
    [AOp.set_state ⟨Order.Background, 0⟩ ⟨true⟩, AOp.set_state ⟨Order.Tooltip, 1⟩ ⟨true⟩] []
    ⟨Order.Background, 0⟩ ⟨Order.Tooltip, 1⟩
    (Or.inl ⟨⟨true⟩, by simp⟩) (Or.inl ⟨⟨true⟩, by simp⟩)
  have h2 := C1_compare_order_strict_total_order
    [AOp.set_state ⟨Order.Background, 0⟩ ⟨true⟩, AOp.set_state ⟨Order.Tooltip, 1⟩ ⟨true⟩] []
    ⟨Order.Background, 0⟩ ⟨Order.Background, 0⟩
    (Or.inl ⟨⟨true⟩, by simp⟩) (Or.inl ⟨⟨true⟩, by simp⟩)
  exact ⟨h.2.2.2 (by decide), h2.2.2.1.mpr rfl⟩
